import Mathlib

/-!
Verification of the PE image re-layout transform of unexw32.c
(the Windows unexec for this Emacs distribution).

The source file is shallowly embedded: machine words (DWORD_PTR) are
modelled as natural numbers, with arithmetic that the C program performs
on unsigned 64-bit values carried out modulo 2^64 (wadd, wsub) where
wrap-around is observable; pointer arithmetic on mapped file cursors is
modelled as plain natural-number arithmetic, since a valid execution
keeps all cursors inside the mapped objects.  File contents are
functions from file offsets to byte values; the destination file starts
zero-filled, as a freshly created file mapping does.
-/

/-- The modulus for DWORD_PTR (64-bit unsigned) arithmetic. -/
def W : Nat := 18446744073709551616

/-- Addition of DWORD_PTR values, wrapping modulo 2^64. -/
def wadd (a b : Nat) : Nat := (a + b) % W

/-- Subtraction of DWORD_PTR values, wrapping modulo 2^64. -/
def wsub (a b : Nat) : Nat := (a + (W - b % W)) % W

theorem wadd_eq (a b : Nat) (h : a + b < W) : wadd a b = a + b := by
  unfold wadd W at *
  omega

theorem wsub_eq (a b : Nat) (hba : b ≤ a) (ha : a < W) : wsub a b = a - b := by
  unfold wsub W at *
  omega

theorem wsub_self (a : Nat) : wsub a a = 0 := by
  unfold wsub W
  omega

theorem wadd_zero (a : Nat) (ha : a < W) : wadd a 0 = a := by
  unfold wadd W at *
  omega

/-- wadd (wsub) collapse: adding a wrapped difference recovers the plain
difference whenever the true result is representable. -/
theorem wadd_wsub (a b c : Nat) (ha : a < W) (hb : b < W)
    (h1 : c ≤ a + b) (h2 : a + b - c < W) : wadd a (wsub b c) = a + b - c := by
  unfold wadd wsub W at *
  omega

/-- One entry of the PE section table (IMAGE_SECTION_HEADER).  The name
is the fixed 8-byte Name field, kept as a list of byte values. -/
structure SectionHeader where
  name : List Nat
  virtualSize : Nat
  virtualAddress : Nat
  sizeOfRawData : Nat
  pointerToRawData : Nat
  pointerToRelocations : Nat
  pointerToLinenumbers : Nat
  numberOfRelocations : Nat
  numberOfLinenumbers : Nat
  characteristics : Nat
deriving DecidableEq

/-- Modelled from the spec: the ROUND_UP macro (defined in a heap-support
header that is not part of this source tree) rounds a value up to the next
multiple of the file alignment.  Alignment 0 leaves the value unchanged. -/
def ROUND_UP (x align : Nat) : Nat :=
  if align = 0 then x else align * ((x + align - 1) / align)

theorem ROUND_UP_le (x align : Nat) : x ≤ ROUND_UP x align := by
  unfold ROUND_UP
  split
  · exact Nat.le_refl x
  · rename_i h
    have ha : 0 < align := Nat.pos_of_ne_zero h
    have hdm := Nat.div_add_mod (x + align - 1) align
    have hml : (x + align - 1) % align < align := Nat.mod_lt _ ha
    omega

theorem ROUND_UP_eq_self (x align : Nat) (h : align ∣ x) : ROUND_UP x align = x := by
  unfold ROUND_UP
  split
  · rfl
  · rename_i hne
    have ha : 0 < align := Nat.pos_of_ne_zero hne
    obtain ⟨q, hq⟩ := h
    subst hq
    have harr : align * q + align - 1 = align * q + (align - 1) := by omega
    rw [harr, Nat.mul_add_div ha]
    have h1 : (align - 1) / align = 0 := Nat.div_eq_of_lt (by omega)
    rw [h1]
    ring

theorem ROUND_UP_dvd (x align : Nat) (ha : 0 < align) : align ∣ ROUND_UP x align := by
  unfold ROUND_UP
  rw [if_neg (Nat.pos_iff_ne_zero.mp ha)]
  exact Dvd.intro _ rfl

theorem ROUND_UP_add_left (c x align : Nat) (h : align ∣ c) :
    ROUND_UP (c + x) align = c + ROUND_UP x align := by
  unfold ROUND_UP
  split
  · rfl
  · rename_i hne
    have ha : 0 < align := Nat.pos_of_ne_zero hne
    obtain ⟨q, hq⟩ := h
    subst hq
    have harr : align * q + x + align - 1 = align * q + (x + align - 1) := by omega
    rw [harr, Nat.mul_add_div ha, Nat.mul_add]

theorem ROUND_UP_lt_add (x align : Nat) (ha : 0 < align) :
    ROUND_UP x align < x + align := by
  unfold ROUND_UP
  split
  · omega
  · have hdm := Nat.div_add_mod (x + align - 1) align
    have hml : (x + align - 1) % align < align := Nat.mod_lt _ ha
    omega

/-- The Name field of a section read as a C string: the bytes of the
fixed-width field up to its first zero byte, which is what strcmp
compares.  (The model assumes the 8-byte field holds a terminating NUL;
an unterminated 8-character name would make strcmp read past the field
into the adjacent header bytes.) -/
def cstrName (s : SectionHeader) : List Nat := s.name.takeWhile (fun b => b ≠ 0)

/-- find_section: return the section header whose Name, compared by
strcmp against the requested name, matches.  The C code walks the
section table in order and returns the first match, or NULL. -/
def find_section (name : List Nat) : List SectionHeader → Option SectionHeader
  | [] => none
  | s :: rest =>
    if cstrName s = name then some s
    else find_section name rest

/-- The section lookup as the spec describes it: the fixed-width 8-byte
name field must exactly equal the queried name (padded with NUL bytes to
the full field width). -/
def pad8 (name : List Nat) : List Nat := name ++ List.replicate (8 - name.length) 0

def find_section_spec (name : List Nat) (secs : List SectionHeader) : Option SectionHeader :=
  secs.find? (fun s => s.name = pad8 name)

/-- The backward walk used for offsets past the last section: starting at
the last section, step back over sections whose PointerToRawData is zero;
i.e. the last section of the table with a nonzero raw-data pointer. -/
def findLastNonzero : List SectionHeader → Option SectionHeader
  | [] => none
  | s :: rest =>
    match findLastNonzero rest with
    | some t => some t
    | none => if s.pointerToRawData ≠ 0 then some s else none

/-- The loop of relocate_offset.  srcAll/dstAll are the full section
tables (needed once the walk falls off the end of the table); the last
two arguments are the suffixes still to be walked, advanced in
lock-step exactly as the two section pointers are in the C code. -/
def relocateGo (offset : Nat) (srcAll dstAll : List SectionHeader) :
    List SectionHeader → List SectionHeader → Nat
  | srcSec :: srcRest, dstSec :: dstRest =>
    if srcSec.pointerToRawData ≤ offset then
      if offset < wadd srcSec.pointerToRawData srcSec.sizeOfRawData then
        wadd offset (wsub dstSec.pointerToRawData srcSec.pointerToRawData)
      else
        match srcRest, dstRest with
        | s2 :: sr, d2 :: dr => relocateGo offset srcAll dstAll (s2 :: sr) (d2 :: dr)
        | _, _ =>
          match findLastNonzero srcAll, findLastNonzero dstAll with
          | some s, some d =>
            wadd offset (wsub (wadd d.pointerToRawData d.sizeOfRawData)
                              (wadd s.pointerToRawData s.sizeOfRawData))
          | _, _ => 0
    else
      wadd offset (wsub dstSec.pointerToRawData srcSec.pointerToRawData)
  | _, _ => offset

/-- relocate_offset: map a file offset valid in the source layout to the
corresponding offset in the destination layout. -/
def relocate_offset (offset : Nat) (src dst : List SectionHeader) : Nat :=
  relocateGo offset src dst src dst

/-- An offset is covered by a section when it falls inside the section's
raw-data range, with the end computed in DWORD_PTR arithmetic as the C
comparison does. -/
def coversOffset (s : SectionHeader) (offset : Nat) : Prop :=
  s.pointerToRawData ≤ offset ∧ offset < wadd s.pointerToRawData s.sizeOfRawData

instance (s : SectionHeader) (offset : Nat) : Decidable (coversOffset s offset) := by
  unfold coversOffset
  infer_instance

/-! ### Claim C9: section locator -/

/-- A section whose fixed-width name field contains an embedded NUL
followed by further nonzero bytes: as a C string it reads "ABC", but as
an 8-byte field it differs from "ABC" padded with NULs. -/
def oddNameSection : SectionHeader :=
  { name := [65, 66, 67, 0, 88, 0, 0, 0]
    virtualSize := 0, virtualAddress := 0, sizeOfRawData := 0
    pointerToRawData := 0, pointerToRelocations := 0, pointerToLinenumbers := 0
    numberOfRelocations := 0, numberOfLinenumbers := 0, characteristics := 0 }

/-- C9 counterexample: find_section compares names with strcmp, which
stops at the first NUL byte of the fixed-width field.  On a table whose
single section has name bytes "ABC\0X\0\0\0", querying "ABC" succeeds in
the code, although no section's fixed-width 8-byte name field exactly
equals the queried name (the spec-described exact comparison finds
nothing). -/
theorem find_section_not_fixed_width_exact :
    find_section [65, 66, 67] [oddNameSection] = some oddNameSection ∧
    find_section_spec [65, 66, 67] [oddNameSection] = none := by
  constructor
  · rfl
  · rfl

/-- C9 amended: the section locator returns the first section whose name
field, read as a NUL-terminated C string (the bytes of the fixed-width
field up to its first zero byte), equals the queried name; it returns
"not found" when no section matches under that comparison.  There is no
wildcarding and no case-folding: the comparison is byte equality. -/
theorem find_section_first_cstring_match (name : List Nat) (secs : List SectionHeader) :
    find_section name secs = secs.find? (fun s => decide (cstrName s = name)) := by
  induction secs with
  | nil => rfl
  | cons s rest ih =>
    by_cases h : cstrName s = name
    · simp [find_section, List.find?, h]
    · simp [find_section, List.find?, h, ih]

/-! ### Claims C2 and C7: offset relocator -/

theorem relocateGo_hit (offset : Nat) (sA dA : List SectionHeader)
    (s d : SectionHeader) (sr dr : List SectionHeader)
    (h1 : s.pointerToRawData ≤ offset)
    (h2 : offset < wadd s.pointerToRawData s.sizeOfRawData) :
    relocateGo offset sA dA (s :: sr) (d :: dr) =
      wadd offset (wsub d.pointerToRawData s.pointerToRawData) := by
  unfold relocateGo
  rw [if_pos h1, if_pos h2]

theorem relocateGo_before (offset : Nat) (sA dA : List SectionHeader)
    (s d : SectionHeader) (sr dr : List SectionHeader)
    (h1 : ¬ s.pointerToRawData ≤ offset) :
    relocateGo offset sA dA (s :: sr) (d :: dr) =
      wadd offset (wsub d.pointerToRawData s.pointerToRawData) := by
  unfold relocateGo
  rw [if_neg h1]

theorem relocateGo_skip (offset : Nat) (sA dA : List SectionHeader)
    (s d s2 d2 : SectionHeader) (sr dr : List SectionHeader)
    (h1 : s.pointerToRawData ≤ offset)
    (h2 : ¬ offset < wadd s.pointerToRawData s.sizeOfRawData) :
    relocateGo offset sA dA (s :: s2 :: sr) (d :: d2 :: dr) =
      relocateGo offset sA dA (s2 :: sr) (d2 :: dr) := by
  conv_lhs => unfold relocateGo
  rw [if_pos h1, if_neg h2]

theorem relocateGo_last (offset : Nat) (sA dA : List SectionHeader)
    (s d : SectionHeader)
    (h1 : s.pointerToRawData ≤ offset)
    (h2 : ¬ offset < wadd s.pointerToRawData s.sizeOfRawData) :
    relocateGo offset sA dA [s] [d] =
      (match findLastNonzero sA, findLastNonzero dA with
       | some ls, some ld =>
         wadd offset (wsub (wadd ld.pointerToRawData ld.sizeOfRawData)
                           (wadd ls.pointerToRawData ls.sizeOfRawData))
       | _, _ => 0) := by
  unfold relocateGo
  rw [if_pos h1, if_neg h2]

/-- The walk stops at the first covering section: if every section of the
suffix before index k admits the offset past its range and section k
covers it, the result is the offset shifted by section k's raw-data
start delta. -/
theorem relocateGo_covered (offset : Nat) (sA dA : List SectionHeader) :
    ∀ (sfx dfx : List SectionHeader) (k : Nat) (hk : k < sfx.length)
      (hk2 : k < dfx.length),
      coversOffset (sfx.get ⟨k, hk⟩) offset →
      (∀ s ∈ sfx.take k, s.pointerToRawData ≤ offset ∧ ¬ coversOffset s offset) →
      relocateGo offset sA dA sfx dfx =
        wadd offset (wsub (dfx.get ⟨k, hk2⟩).pointerToRawData
                          (sfx.get ⟨k, hk⟩).pointerToRawData) := by
  intro sfx
  induction sfx with
  | nil => intro dfx k hk; exact absurd hk (by simp)
  | cons s sr ih =>
    intro dfx k hk hk2 hcov hprev
    match dfx with
    | [] => exact absurd hk2 (by simp)
    | d :: dr =>
      match k with
      | 0 => exact relocateGo_hit offset sA dA s d sr dr hcov.1 hcov.2
      | k + 1 =>
        have hmem : s ∈ (s :: sr).take (k + 1) := by simp [List.take]
        obtain ⟨h1, h2⟩ := hprev s hmem
        have h2' : ¬ offset < wadd s.pointerToRawData s.sizeOfRawData := by
          intro hc; exact h2 ⟨h1, hc⟩
        have hks : k < sr.length := by simpa using hk
        have hkd : k < dr.length := by simpa using hk2
        match sr, dr with
        | s2 :: sr2, d2 :: dr2 =>
          rw [relocateGo_skip offset sA dA s d s2 d2 sr2 dr2 h1 h2']
          have hprev2 : ∀ t ∈ (s2 :: sr2).take k,
              t.pointerToRawData ≤ offset ∧ ¬ coversOffset t offset := by
            intro t ht
            exact hprev t (by simp [List.take]; right; exact ht)
          exact ih (d2 :: dr2) k hks hkd hcov hprev2

/-- The walk falls off the end of the table when every section admits the
offset past its raw-data range; the result is then produced from the last
sections with nonzero raw-data pointers in the full tables. -/
theorem relocateGo_trailing (offset : Nat) (sA dA : List SectionHeader) :
    ∀ (sfx dfx : List SectionHeader), sfx ≠ [] → sfx.length = dfx.length →
      (∀ s ∈ sfx, s.pointerToRawData ≤ offset ∧
        ¬ offset < wadd s.pointerToRawData s.sizeOfRawData) →
      relocateGo offset sA dA sfx dfx =
        (match findLastNonzero sA, findLastNonzero dA with
         | some ls, some ld =>
           wadd offset (wsub (wadd ld.pointerToRawData ld.sizeOfRawData)
                             (wadd ls.pointerToRawData ls.sizeOfRawData))
         | _, _ => 0) := by
  intro sfx
  induction sfx with
  | nil => intro dfx h; exact absurd rfl h
  | cons s sr ih =>
    intro dfx _ hlen hall
    match dfx with
    | [] => exact absurd hlen (by simp)
    | d :: dr =>
      obtain ⟨h1, h2⟩ := hall s (by simp)
      match sr, dr with
      | [], [] => exact relocateGo_last offset sA dA s d h1 h2
      | [], _ :: _ => exact absurd hlen (by simp)
      | _ :: _, [] => exact absurd hlen (by simp)
      | s2 :: sr2, d2 :: dr2 =>
        rw [relocateGo_skip offset sA dA s d s2 d2 sr2 dr2 h1 h2]
        refine ih (d2 :: dr2) (by simp) (by simpa using hlen) ?_
        intro t ht
        exact hall t (by simp at ht ⊢; tauto)

theorem findLastNonzero_mem : ∀ (L : List SectionHeader) (t : SectionHeader),
    findLastNonzero L = some t → t ∈ L := by
  intro L
  induction L with
  | nil => intro t h; exact absurd h (by simp [findLastNonzero])
  | cons s rest ih =>
    intro t h
    simp only [findLastNonzero] at h
    match hrest : findLastNonzero rest with
    | some u =>
      rw [hrest] at h
      simp at h
      subst h
      exact List.mem_cons_of_mem s (ih u hrest)
    | none =>
      rw [hrest] at h
      by_cases hz : s.pointerToRawData ≠ 0
      · rw [if_pos hz] at h
        simp at h
        subst h
        exact List.mem_cons_self s rest
      · rw [if_neg hz] at h
        exact absurd h (by simp)

theorem relocateGo_nil_left (offset : Nat) (sA dA dfx : List SectionHeader) :
    relocateGo offset sA dA [] dfx = offset := by
  unfold relocateGo
  rfl

theorem relocateGo_nil_right (offset : Nat) (sA dA : List SectionHeader)
    (s : SectionHeader) (sr : List SectionHeader) :
    relocateGo offset sA dA (s :: sr) [] = offset := by
  unfold relocateGo
  rfl

/-- The pair of section-table fields the offset relocator reads. -/
def secKey (s : SectionHeader) : Nat × Nat := (s.pointerToRawData, s.sizeOfRawData)

theorem findLastNonzero_map_eq : ∀ (src dst : List SectionHeader),
    src.map secKey = dst.map secKey →
    Option.map secKey (findLastNonzero src) = Option.map secKey (findLastNonzero dst) := by
  intro src
  induction src with
  | nil =>
    intro dst h
    have : dst = [] := by
      cases dst with
      | nil => rfl
      | cons d dr => exact absurd h (by simp)
    subst this
    rfl
  | cons s sr ih =>
    intro dst h
    match dst with
    | [] => exact absurd h (by simp)
    | d :: dr =>
      simp only [List.map] at h
      have hkey : secKey s = secKey d := (List.cons.injEq _ _ _ _).mp h |>.1
      have htail : sr.map secKey = dr.map secKey := (List.cons.injEq _ _ _ _).mp h |>.2
      have hrec := ih dr htail
      simp only [findLastNonzero]
      match h1 : findLastNonzero sr, h2 : findLastNonzero dr with
      | some u, some v =>
        rw [h1, h2] at hrec
        simpa using hrec
      | some u, none =>
        rw [h1, h2] at hrec
        exact absurd hrec (by simp)
      | none, some v =>
        rw [h1, h2] at hrec
        exact absurd hrec (by simp)
      | none, none =>
        have hz : (s.pointerToRawData ≠ 0) = (d.pointerToRawData ≠ 0) := by
          have : s.pointerToRawData = d.pointerToRawData :=
            congrArg Prod.fst hkey
          rw [this]
        by_cases hc : s.pointerToRawData ≠ 0
        · rw [if_pos hc, if_pos (hz ▸ hc)]
          simpa using hkey
        · rw [if_neg hc, if_neg (hz ▸ hc)]

theorem findLastNonzero_none : ∀ (L : List SectionHeader),
    findLastNonzero L = none → ∀ s ∈ L, s.pointerToRawData = 0 := by
  intro L
  induction L with
  | nil => intro _ s hs; exact absurd hs (by simp)
  | cons s sr ih =>
    intro h t ht
    simp only [findLastNonzero] at h
    match h1 : findLastNonzero sr with
    | some u => rw [h1] at h; exact absurd h (by simp)
    | none =>
      rw [h1] at h
      by_cases hz : s.pointerToRawData ≠ 0
      · rw [if_pos hz] at h; exact absurd h (by simp)
      · rw [if_neg hz] at h
        rcases List.mem_cons.mp ht with h2 | h2
        · subst h2; omega
        · exact ih h1 t h2

/-- C7 walk lemma: when source and destination suffixes agree on raw-data
pointer and size, and the full tables end in last-nonzero sections with
equal keys, every branch of the walk returns the offset unchanged. -/
theorem relocateGo_id (offset : Nat) (sA dA : List SectionHeader) (ls ld : SectionHeader)
    (hs : findLastNonzero sA = some ls) (hd : findLastNonzero dA = some ld)
    (hk : secKey ls = secKey ld) (hoff : offset < W) :
    ∀ (sfx dfx : List SectionHeader), sfx.map secKey = dfx.map secKey →
      relocateGo offset sA dA sfx dfx = offset := by
  intro sfx
  induction sfx with
  | nil => intro dfx _; exact relocateGo_nil_left offset sA dA dfx
  | cons s sr ih =>
    intro dfx h
    match dfx with
    | [] => exact absurd h (by simp)
    | d :: dr =>
      simp only [List.map] at h
      have hkey : secKey s = secKey d := (List.cons.injEq _ _ _ _).mp h |>.1
      have htail : sr.map secKey = dr.map secKey := (List.cons.injEq _ _ _ _).mp h |>.2
      have hptr : s.pointerToRawData = d.pointerToRawData := congrArg Prod.fst hkey
      by_cases h1 : s.pointerToRawData ≤ offset
      · by_cases h2 : offset < wadd s.pointerToRawData s.sizeOfRawData
        · rw [relocateGo_hit offset sA dA s d sr dr h1 h2, ← hptr, wsub_self,
            wadd_zero offset hoff]
        · match sr, dr with
          | [], [] =>
            rw [relocateGo_last offset sA dA s d h1 h2, hs, hd]
            show wadd offset (wsub (wadd ld.pointerToRawData ld.sizeOfRawData)
              (wadd ls.pointerToRawData ls.sizeOfRawData)) = offset
            have he : (ls.pointerToRawData, ls.sizeOfRawData) =
                (ld.pointerToRawData, ld.sizeOfRawData) := hk
            rw [(Prod.mk.injEq _ _ _ _).mp he |>.1, (Prod.mk.injEq _ _ _ _).mp he |>.2,
              wsub_self, wadd_zero offset hoff]
          | [], _ :: _ => exact absurd htail (by simp)
          | _ :: _, [] => exact absurd htail (by simp)
          | s2 :: sr2, d2 :: dr2 =>
            rw [relocateGo_skip offset sA dA s d s2 d2 sr2 dr2 h1 h2]
            exact ih (d2 :: dr2) htail
      · rw [relocateGo_before offset sA dA s d sr dr h1, ← hptr, wsub_self,
          wadd_zero offset hoff]

/-- C7: offset relocation is the identity under no growth.  If source and
destination section tables agree entry-by-entry on raw-data offset and
raw-data size, and at least one section has a nonzero raw-data pointer
(so that the trailing backward walk is well defined), the relocator
returns every representable offset unchanged. -/
theorem relocate_offset_identity (src dst : List SectionHeader) (offset : Nat)
    (hmap : src.map secKey = dst.map secKey)
    (hnz : ∃ s ∈ src, s.pointerToRawData ≠ 0)
    (hoff : offset < W) :
    relocate_offset offset src dst = offset := by
  obtain ⟨w, hwmem, hwz⟩ := hnz
  have hsome : ∃ ls, findLastNonzero src = some ls := by
    match h : findLastNonzero src with
    | some ls => exact ⟨ls, rfl⟩
    | none => exact absurd (findLastNonzero_none src h w hwmem) hwz
  obtain ⟨ls, hs⟩ := hsome
  have hmapped := findLastNonzero_map_eq src dst hmap
  rw [hs] at hmapped
  match hd : findLastNonzero dst with
  | none => rw [hd] at hmapped; exact absurd hmapped (by simp)
  | some ld =>
    rw [hd] at hmapped
    simp only [Option.map] at hmapped
    have hk : secKey ls = secKey ld := by simpa using hmapped
    unfold relocate_offset
    exact relocateGo_id offset src dst ls ld hs hd hk hoff src dst hmap

/-- C2: the offset relocator maps a source-layout offset to the
destination layout.  First conjunct: an offset covered by the first
covering section k (every earlier section's raw data starts at or before
the offset and does not cover it) is shifted by the difference between
destination and source raw-data starts of section k.  Second conjunct: an
offset past the end of every section's raw data is shifted by the
difference between the raw-data ends of the last sections with nonzero
raw-data pointers of the destination and source tables. -/
theorem relocate_offset_section_delta (src dst : List SectionHeader) (offset : Nat)
    (hoff : offset < W)
    (hsrcW : ∀ s ∈ src, s.pointerToRawData + s.sizeOfRawData < W)
    (hdstW : ∀ s ∈ dst, s.pointerToRawData + s.sizeOfRawData < W) :
    (∀ (k : Nat) (hk : k < src.length) (hk2 : k < dst.length),
        (src.get ⟨k, hk⟩).pointerToRawData ≤ offset →
        offset < (src.get ⟨k, hk⟩).pointerToRawData + (src.get ⟨k, hk⟩).sizeOfRawData →
        (∀ s ∈ src.take k, s.pointerToRawData ≤ offset ∧
          ¬ (s.pointerToRawData ≤ offset ∧
             offset < s.pointerToRawData + s.sizeOfRawData)) →
        offset + (dst.get ⟨k, hk2⟩).pointerToRawData -
          (src.get ⟨k, hk⟩).pointerToRawData < W →
        relocate_offset offset src dst =
          offset + (dst.get ⟨k, hk2⟩).pointerToRawData -
            (src.get ⟨k, hk⟩).pointerToRawData)
    ∧
    (∀ ls ld : SectionHeader,
        (∀ s ∈ src, s.pointerToRawData + s.sizeOfRawData ≤ offset) →
        src ≠ [] → src.length = dst.length →
        findLastNonzero src = some ls → findLastNonzero dst = some ld →
        offset + (ld.pointerToRawData + ld.sizeOfRawData) -
          (ls.pointerToRawData + ls.sizeOfRawData) < W →
        relocate_offset offset src dst =
          offset + (ld.pointerToRawData + ld.sizeOfRawData) -
            (ls.pointerToRawData + ls.sizeOfRawData)) := by
  constructor
  · intro k hk hk2 h1 h2 hprev hfit
    have hmem := List.get_mem src k hk
    have hmemd := List.get_mem dst k hk2
    have hcov : coversOffset (src.get ⟨k, hk⟩) offset := by
      refine ⟨h1, ?_⟩
      rw [wadd_eq _ _ (hsrcW _ hmem)]
      exact h2
    have hprev' : ∀ s ∈ src.take k,
        s.pointerToRawData ≤ offset ∧ ¬ coversOffset s offset := by
      intro s hsmem
      have hsrc : s ∈ src := List.take_subset k src hsmem
      obtain ⟨hp1, hp2⟩ := hprev s hsmem
      refine ⟨hp1, fun hc => hp2 ⟨hc.1, ?_⟩⟩
      have h3 := hc.2
      rw [wadd_eq _ _ (hsrcW _ hsrc)] at h3
      exact h3
    unfold relocate_offset
    rw [relocateGo_covered offset src dst src dst k hk hk2 hcov hprev']
    exact wadd_wsub offset _ _ hoff
      (Nat.lt_of_le_of_lt (Nat.le_add_right _ _) (hdstW _ hmemd))
      (Nat.le_trans h1 (Nat.le_add_right _ _)) hfit
  · intro ls ld hall hne hlen hs hd hfit
    have hall' : ∀ s ∈ src, s.pointerToRawData ≤ offset ∧
        ¬ offset < wadd s.pointerToRawData s.sizeOfRawData := by
      intro s hsmem
      have hb := hsrcW _ hsmem
      have he := hall _ hsmem
      refine ⟨by omega, ?_⟩
      rw [wadd_eq _ _ hb]
      omega
    unfold relocate_offset
    rw [relocateGo_trailing offset src dst src dst hne hlen hall', hs, hd]
    show wadd offset (wsub (wadd ld.pointerToRawData ld.sizeOfRawData)
      (wadd ls.pointerToRawData ls.sizeOfRawData)) =
      offset + (ld.pointerToRawData + ld.sizeOfRawData) -
        (ls.pointerToRawData + ls.sizeOfRawData)
    have hls : ls ∈ src := findLastNonzero_mem src ls hs
    have hld : ld ∈ dst := findLastNonzero_mem dst ld hd
    rw [wadd_eq _ _ (hsrcW _ hls), wadd_eq _ _ (hdstW _ hld)]
    exact wadd_wsub offset _ _ hoff (hdstW _ hld)
      (Nat.le_trans (hall _ hls) (Nat.le_add_right _ _)) hfit

/-- A helper to build section headers concisely in concrete examples. -/
def mkSec (ptr size va vsize chars : Nat) : SectionHeader :=
  { name := [], virtualSize := vsize, virtualAddress := va, sizeOfRawData := size
    pointerToRawData := ptr, pointerToRelocations := 0, pointerToLinenumbers := 0
    numberOfRelocations := 0, numberOfLinenumbers := 0, characteristics := chars }

def c2src : List SectionHeader := [mkSec 16 16 4096 16 64, mkSec 32 16 8192 16 64]

def c2dst : List SectionHeader := [mkSec 16 16 4096 16 64, mkSec 48 16 8192 16 64]

theorem relocate_offset_section_delta_witness :
    (40 < W ∧
     (∀ s ∈ c2src, s.pointerToRawData + s.sizeOfRawData < W) ∧
     (∀ s ∈ c2dst, s.pointerToRawData + s.sizeOfRawData < W)) ∧
    relocate_offset 40 c2src c2dst =
      40 + (c2dst.get ⟨1, by decide⟩).pointerToRawData -
        (c2src.get ⟨1, by decide⟩).pointerToRawData :=
  ⟨⟨by decide, by decide, by decide⟩,
   (relocate_offset_section_delta c2src c2dst 40 (by decide) (by decide) (by decide)).1
     1 (by decide) (by decide) (by decide) (by decide) (by decide) (by decide)⟩

def c7secs : List SectionHeader := [mkSec 16 16 4096 16 64]

theorem relocate_offset_identity_witness :
    (c7secs.map secKey = c7secs.map secKey ∧
     (∃ s ∈ c7secs, s.pointerToRawData ≠ 0) ∧ 5 < W) ∧
    relocate_offset 5 c7secs c7secs = 5 :=
  ⟨⟨rfl, by decide, by decide⟩,
   relocate_offset_identity c7secs c7secs 5 rfl (by decide) (by decide)⟩

/-! ### Claim C8: output path construction in unexec -/

def slashChar : Char := Char.ofNat 47

def backslashChar : Char := Char.ofNat 92

/-- ".exe" as a character list. -/
def exeChars : List Char := [Char.ofNat 46, Char.ofNat 101, Char.ofNat 120, Char.ofNat 101]

/-- unexec converts backslashes of the running executable's path to
forward slashes before any other processing. -/
def slashify (s : List Char) : List Char :=
  s.map (fun c => if c = backslashChar then slashChar else c)

/-- Index of the last occurrence of a character (strrchr), or none. -/
def strrchrIdx (c : Char) : List Char → Option Nat
  | [] => none
  | a :: rest =>
    match strrchrIdx c rest with
    | some i => some (i + 1)
    | none => if a = c then some 0 else none

/-- The final ".exe" normalization of unexec: compare the last four
characters with ".exe" and append ".exe" when they differ. -/
def ensureExeSuffix (s : List Char) : List Char :=
  if s.drop (s.length - 4) = exeChars then s else s ++ exeChars

/-- The output file name computed by unexec: the running executable's
path (slash-normalized) with everything from its last slash replaced by
the tail of the requested name from its last slash, then ".exe"
normalization.  Returns none when either name has no slash (unexec
aborts in that case). -/
def computeOutputName (inName newName : List Char) : Option (List Char) :=
  match strrchrIdx slashChar (slashify inName), strrchrIdx slashChar newName with
  | some i, some j =>
    some (ensureExeSuffix ((slashify inName).take i ++ newName.drop j))
  | _, _ => none

theorem ensureExeSuffix_suffix (s : List Char) :
    (ensureExeSuffix s).drop ((ensureExeSuffix s).length - 4) = exeChars := by
  unfold ensureExeSuffix
  by_cases h : s.drop (s.length - 4) = exeChars
  · rw [if_pos h]
    exact h
  · rw [if_neg h]
    have hlen : (s ++ exeChars).length = s.length + 4 := by simp [exeChars]
    rw [hlen]
    have h2 : s.length + 4 - 4 = s.length := by omega
    rw [h2]
    simp

/-- C8 counterexample: the transform does not write the output at the
requested path.  With the running executable at "C:/build/temacs.exe"
and the requested output path "D:/out/emacs.exe", the computed output
file name is "C:/build/emacs.exe" — the requested directory is ignored;
only the base name of the requested path is used. -/
theorem unexec_output_path_not_requested :
    computeOutputName ("C:/build/temacs.exe".toList) ("D:/out/emacs.exe".toList) =
      some ("C:/build/emacs.exe".toList) ∧
    ("C:/build/emacs.exe".toList : List Char) ≠ "D:/out/emacs.exe".toList := by
  constructor
  · decide
  · decide

/-- C8 amended: the transform writes the new executable at the path
obtained by replacing the base name of the running executable's own
(slash-normalized) path with the base name of the requested output path,
and the resulting name always ends in ".exe" (the suffix is appended
when the name does not already end in it). -/
theorem unexec_output_name_shape (inName newName : List Char) (i j : Nat)
    (hi : strrchrIdx slashChar (slashify inName) = some i)
    (hj : strrchrIdx slashChar newName = some j) :
    computeOutputName inName newName =
      some (ensureExeSuffix ((slashify inName).take i ++ newName.drop j)) ∧
    ∀ r, computeOutputName inName newName = some r →
      r.drop (r.length - 4) = exeChars := by
  have hmain : computeOutputName inName newName =
      some (ensureExeSuffix ((slashify inName).take i ++ newName.drop j)) := by
    unfold computeOutputName
    rw [hi, hj]
  refine ⟨hmain, ?_⟩
  intro r hr
  rw [hmain] at hr
  have : r = ensureExeSuffix ((slashify inName).take i ++ newName.drop j) := by
    injection hr.symm
  rw [this]
  exact ensureExeSuffix_suffix _

theorem unexec_output_name_shape_witness :
    (strrchrIdx slashChar (slashify ("C:/build/temacs.exe".toList)) = some 8 ∧
     strrchrIdx slashChar ("D:/out/emacs.exe".toList) = some 6) ∧
    (computeOutputName ("C:/build/temacs.exe".toList) ("D:/out/emacs.exe".toList) =
      some (ensureExeSuffix ((slashify ("C:/build/temacs.exe".toList)).take 8 ++
        ("D:/out/emacs.exe".toList).drop 6)) ∧
     ∀ r, computeOutputName ("C:/build/temacs.exe".toList)
        ("D:/out/emacs.exe".toList) = some r →
       r.drop (r.length - 4) = exeChars) :=
  ⟨⟨by decide, by decide⟩,
   unexec_output_name_shape ("C:/build/temacs.exe".toList)
     ("D:/out/emacs.exe".toList) 8 6 (by decide) (by decide)⟩

/-! ### Claim C10: output file creation semantics -/

/-- A minimal file-system model sufficient for hard-link reasoning.
Paths and inodes are numbers; links maps a path to the inode it names,
contents maps an inode to its byte contents, and nextInode is a source
of fresh inode numbers (every live inode is below it). -/
structure FileSystem where
  links : Nat → Option Nat
  contents : Nat → List Nat
  nextInode : Nat

/-- Modelled from the documented Win32 semantics the code relies on:
DeleteFileA removes the directory entry at the path; the file object and
its contents survive through any other hard links. -/
def deleteFile (fs : FileSystem) (p : Nat) : FileSystem :=
  { fs with links := fun q => if q = p then none else fs.links q }

/-- Modelled from the documented Win32 semantics the code relies on:
CreateFileA with CREATE_ALWAYS binds the path to a fresh, empty file
object, leaving every other path's binding and every existing file
object's contents unchanged. -/
def createFileAlways (fs : FileSystem) (p : Nat) : FileSystem :=
  { links := fun q => if q = p then some fs.nextInode else fs.links q
    contents := fun ino => if ino = fs.nextInode then [] else fs.contents ino
    nextInode := fs.nextInode + 1 }

/-- open_output_file first deletes any existing file at the output path
and then creates the output file with CREATE_ALWAYS (the mapping and
view steps do not affect the name-to-object binding). -/
def open_output_file (fs : FileSystem) (p : Nat) : FileSystem :=
  createFileAlways (deleteFile fs p) p

/-- C10: the output is always a newly created file object.  After
open_output_file, the output path names a fresh inode (not any inode
previously reachable), any other path that named the old file still
names it, and the old file's contents are untouched — hard links to the
previous build keep the old image. -/
theorem open_output_file_fresh_object (fs : FileSystem) (p q ino : Nat)
    (hq : q ≠ p) (hlink : fs.links q = some ino)
    (hfresh : ∀ r i, fs.links r = some i → i < fs.nextInode) :
    (open_output_file fs p).links p = some fs.nextInode ∧
    (open_output_file fs p).links q = some ino ∧
    (open_output_file fs p).contents ino = fs.contents ino ∧
    fs.nextInode ≠ ino ∧
    (open_output_file fs p).contents fs.nextInode = [] := by
  have hlt : ino < fs.nextInode := hfresh q ino hlink
  unfold open_output_file createFileAlways deleteFile
  refine ⟨by simp, ?_, ?_, by omega, by simp⟩
  · simp only []
    rw [if_neg hq, if_neg hq]
    exact hlink
  · simp only []
    rw [if_neg (by omega : ino ≠ fs.nextInode)]

/-- A concrete file system: paths 0 and 1 are hard links to inode 5
(the previous build), whose contents are [7]. -/
def fsExample : FileSystem :=
  { links := fun q => if q ≤ 1 then some 5 else none
    contents := fun _ => [7]
    nextInode := 6 }

theorem open_output_file_fresh_object_witness :
    ((1 : Nat) ≠ 0 ∧
     fsExample.links 1 = some 5 ∧
     (∀ r i, fsExample.links r = some i → i < fsExample.nextInode)) ∧
    ((open_output_file fsExample 0).links 0 = some fsExample.nextInode ∧
     (open_output_file fsExample 0).links 1 = some 5 ∧
     (open_output_file fsExample 0).contents 5 = fsExample.contents 5 ∧
     fsExample.nextInode ≠ 5 ∧
     (open_output_file fsExample 0).contents fsExample.nextInode = []) :=
  ⟨⟨by decide, by simp [fsExample], fun r i h => by
      by_cases hr : r ≤ 1
      · simp [fsExample, hr] at h
        simp [fsExample]
        omega
      · simp [fsExample, hr] at h⟩,
   open_output_file_fresh_object fsExample 0 1 5 (by decide) (by simp [fsExample])
     (fun r i h => by
        by_cases hr : r ≤ 1
        · simp [fsExample, hr] at h
          simp [fsExample]
          omega
        · simp [fsExample, hr] at h)⟩

/-! ### The image copier: copy_executable_and_dump_data -/

/-- A dumped memory region: its RVA (address relative to the image
base), its byte size, and the index of the section that owns it (the C
code identifies the owner by a cached pointer into the source section
table; pointer equality is index equality). -/
structure Region where
  rva : Nat
  size : Nat
  owner : Nat
deriving DecidableEq

/-- Write count bytes taken from srcf starting at srcOff into out at
offset off (memcpy into the destination mapping). -/
def writeBytes (out : Nat → Nat) (off : Nat) (srcf : Nat → Nat)
    (srcOff count : Nat) : Nat → Nat :=
  fun p => if off ≤ p ∧ p < off + count then srcf (srcOff + (p - off)) else out p

theorem writeBytes_zero (out : Nat → Nat) (off : Nat) (srcf : Nat → Nat) (srcOff : Nat) :
    writeBytes out off srcf srcOff 0 = out := by
  funext p
  unfold writeBytes
  rw [if_neg (by omega)]

theorem writeBytes_lt (out : Nat → Nat) (off : Nat) (srcf : Nat → Nat)
    (srcOff count p : Nat) (h : p < off) :
    writeBytes out off srcf srcOff count p = out p := by
  unfold writeBytes
  rw [if_neg (by omega)]

theorem writeBytes_ge (out : Nat → Nat) (off : Nat) (srcf : Nat → Nat)
    (srcOff count p : Nat) (h : off + count ≤ p) :
    writeBytes out off srcf srcOff count p = out p := by
  unfold writeBytes
  rw [if_neg (by omega)]

theorem writeBytes_in (out : Nat → Nat) (off : Nat) (srcf : Nat → Nat)
    (srcOff count p : Nat) (h1 : off ≤ p) (h2 : p < off + count) :
    writeBytes out off srcf srcOff count p = srcf (srcOff + (p - off)) := by
  unfold writeBytes
  rw [if_pos ⟨h1, h2⟩]

/-- The copier's mutable state: the destination file bytes, the write
cursor dst (as an offset into the destination file), and — as pure
instrumentation for the overlap claim — the list of (rva, size) pairs
dumped by the bss/static-bss COPY_PROC_CHUNK calls. -/
structure OutState where
  out : Nat → Nat
  cursor : Nat
  bssDumps : List (Nat × Nat)

/-- IMAGE_SCN_CNT_INITIALIZED_DATA. -/
def SCN_INIT_DATA : Nat := 64

/-- IMAGE_SCN_CNT_UNINITIALIZED_DATA. -/
def SCN_UNINIT_DATA : Nat := 128

/-- The 32-bit complement mask of IMAGE_SCN_CNT_UNINITIALIZED_DATA. -/
def SCN_UNINIT_MASK : Nat := 4294967167

/-- COPY_CHUNK of the section's raw data followed by
ROUND_UP_DST_AND_ZERO: copy SizeOfRawData bytes from the source file at
PointerToRawData, then zero the alignment slop and align the cursor. -/
def rawStep (align : Nat) (srcBytes : Nat → Nat) (s : SectionHeader)
    (st : OutState) : OutState :=
  let out1 := writeBytes st.out st.cursor srcBytes s.pointerToRawData s.sizeOfRawData
  let c1 := st.cursor + s.sizeOfRawData
  { out := writeBytes out1 c1 (fun _ => 0) 0 (ROUND_UP c1 align - c1)
    cursor := ROUND_UP c1 align
    bssDumps := st.bssDumps }

/-- The data-region branch: when this section owns the data region, move
the cursor to the region's offset inside the freshly copied raw data,
COPY_PROC_CHUNK the live region contents over it, and restore the cursor
to the end of the section's raw data. -/
def dataStep (mem : Nat → Nat) (dataR : Option Region) (i dstSave : Nat)
    (s1 : SectionHeader) (st : OutState) : OutState :=
  match dataR with
  | some r =>
    if r.owner = i then
      { out := writeBytes st.out (dstSave + wsub r.rva s1.virtualAddress) mem r.rva r.size
        cursor := dstSave + s1.sizeOfRawData
        bssDumps := st.bssDumps }
    else st
  | none => st

/-- The bss branch (the static-bss branch is the same code over the
other region): when this section owns the region, COPY_PROC_CHUNK the
live contents at the region's offset inside the section, ROUND_UP_DST
(without zeroing), re-record the raw-data pointer, set the cursor to the
maximum of the aligned region end and the end of the original raw data,
record the new raw-data size, and flip the characteristics from
uninitialized-data to initialized-data. -/
def bssStep (align : Nat) (mem : Nat → Nat) (bssR : Option Region) (i dstSave : Nat)
    (s1 : SectionHeader) (st : OutState) : SectionHeader × OutState :=
  match bssR with
  | some r =>
    if r.owner = i then
      let cB := dstSave + wsub r.rva s1.virtualAddress
      let cB3 := max (ROUND_UP (cB + r.size) align) (dstSave + s1.sizeOfRawData)
      ({ s1 with pointerToRawData := dstSave
                 sizeOfRawData := cB3 - dstSave
                 characteristics :=
                   (s1.characteristics &&& SCN_UNINIT_MASK) ||| SCN_INIT_DATA },
       { out := writeBytes st.out cB mem r.rva r.size
         cursor := cB3
         bssDumps := st.bssDumps ++ [(r.rva, r.size)] })
    else (s1, st)
  | none => (s1, st)

/-- One iteration of the copy loop for source section s at table index
i: update the destination raw-data pointer when nonzero, copy the raw
data and zero the slop, run the data branch, the bss branch, and the
static-bss branch, then align the cursor for the next section. -/
def sectionStep (align : Nat) (srcBytes mem : Nat → Nat)
    (dataR bssR bssSR : Option Region) (i : Nat)
    (s : SectionHeader) (st : OutState) : SectionHeader × OutState :=
  let dstSave := st.cursor
  let s1 := if s.pointerToRawData ≠ 0 then
      { s with pointerToRawData := st.cursor } else s
  let st1 := rawStep align srcBytes s st
  let st2 := dataStep mem dataR i dstSave s1 st1
  let p3 := bssStep align mem bssR i dstSave s1 st2
  let p4 := bssStep align mem bssSR i dstSave p3.1 p3.2
  (p4.1, { p4.2 with cursor := ROUND_UP p4.2.cursor align })

/-- The copy loop over the source section table, threading the state and
collecting the rewritten destination section headers in order. -/
def copySections (align : Nat) (srcBytes mem : Nat → Nat)
    (dataR bssR bssSR : Option Region) :
    Nat → OutState → List SectionHeader → List SectionHeader × OutState
  | _, st, [] => ([], st)
  | i, st, s :: rest =>
    let p := sectionStep align srcBytes mem dataR bssR bssSR i s st
    let q := copySections align srcBytes mem dataR bssR bssSR (i + 1) p.2 rest
    (p.1 :: q.1, q.2)

theorem ROUND_UP_idem (x a : Nat) : ROUND_UP (ROUND_UP x a) a = ROUND_UP x a := by
  by_cases h : a = 0
  · subst h
    unfold ROUND_UP
    rfl
  · exact ROUND_UP_eq_self _ _ (ROUND_UP_dvd x a (Nat.pos_of_ne_zero h))

/-- A region option that does not select section index i. -/
def misses (r? : Option Region) (i : Nat) : Prop :=
  ∀ r, r? = some r → r.owner ≠ i

instance (r? : Option Region) (i : Nat) : Decidable (misses r? i) := by
  unfold misses
  cases r? with
  | none => exact isTrue (fun r h => by cases h)
  | some r =>
    by_cases h : r.owner = i
    · exact isFalse (fun hf => hf r rfl h)
    · exact isTrue (fun q hq => by cases hq; exact h)

theorem rawStep_cursor (align : Nat) (sb : Nat → Nat) (s : SectionHeader) (st : OutState) :
    (rawStep align sb s st).cursor = ROUND_UP (st.cursor + s.sizeOfRawData) align := rfl

theorem rawStep_dumps (align : Nat) (sb : Nat → Nat) (s : SectionHeader) (st : OutState) :
    (rawStep align sb s st).bssDumps = st.bssDumps := rfl

theorem rawStep_out_below (align : Nat) (sb : Nat → Nat) (s : SectionHeader)
    (st : OutState) (p : Nat) (hp : p < st.cursor) :
    (rawStep align sb s st).out p = st.out p := by
  simp only [rawStep]
  rw [writeBytes_lt _ _ _ _ _ _ (by omega), writeBytes_lt _ _ _ _ _ _ hp]

theorem rawStep_out_raw (align : Nat) (sb : Nat → Nat) (s : SectionHeader)
    (st : OutState) (p : Nat) (h1 : st.cursor ≤ p)
    (h2 : p < st.cursor + s.sizeOfRawData) :
    (rawStep align sb s st).out p = sb (s.pointerToRawData + (p - st.cursor)) := by
  simp only [rawStep]
  rw [writeBytes_lt _ _ _ _ _ _ (by omega), writeBytes_in _ _ _ _ _ _ h1 h2]

theorem rawStep_out_ge (align : Nat) (sb : Nat → Nat) (s : SectionHeader)
    (st : OutState) (p : Nat)
    (h : ROUND_UP (st.cursor + s.sizeOfRawData) align ≤ p) :
    (rawStep align sb s st).out p = st.out p := by
  have hle : st.cursor + s.sizeOfRawData ≤ ROUND_UP (st.cursor + s.sizeOfRawData) align :=
    ROUND_UP_le _ _
  simp only [rawStep]
  rw [writeBytes_ge _ _ _ _ _ _ (by omega), writeBytes_ge _ _ _ _ _ _ (by omega)]

theorem dataStep_misses (mem : Nat → Nat) (dataR : Option Region) (i dstSave : Nat)
    (s1 : SectionHeader) (st : OutState) (h : misses dataR i) :
    dataStep mem dataR i dstSave s1 st = st := by
  cases dataR with
  | none => rfl
  | some r =>
    simp only [dataStep]
    rw [if_neg (h r rfl)]

theorem dataStep_out_below (mem : Nat → Nat) (dataR : Option Region) (i dstSave : Nat)
    (s1 : SectionHeader) (st : OutState) (p : Nat) (hp : p < dstSave) :
    (dataStep mem dataR i dstSave s1 st).out p = st.out p := by
  cases dataR with
  | none => rfl
  | some r =>
    simp only [dataStep]
    by_cases h : r.owner = i
    · rw [if_pos h]
      exact writeBytes_lt _ _ _ _ _ _ (by omega)
    · rw [if_neg h]

theorem dataStep_dumps (mem : Nat → Nat) (dataR : Option Region) (i dstSave : Nat)
    (s1 : SectionHeader) (st : OutState) :
    (dataStep mem dataR i dstSave s1 st).bssDumps = st.bssDumps := by
  cases dataR with
  | none => rfl
  | some r =>
    simp only [dataStep]
    by_cases h : r.owner = i
    · rw [if_pos h]
    · rw [if_neg h]

theorem dataStep_cursor_ge (mem : Nat → Nat) (dataR : Option Region) (i dstSave : Nat)
    (s1 : SectionHeader) (st : OutState) (h : dstSave ≤ st.cursor) :
    dstSave ≤ (dataStep mem dataR i dstSave s1 st).cursor := by
  cases dataR with
  | none => exact h
  | some r =>
    simp only [dataStep]
    by_cases ho : r.owner = i
    · rw [if_pos ho]
      exact Nat.le_add_right _ _
    · rw [if_neg ho]
      exact h

theorem bssStep_misses (align : Nat) (mem : Nat → Nat) (bssR : Option Region)
    (i dstSave : Nat) (s1 : SectionHeader) (st : OutState) (h : misses bssR i) :
    bssStep align mem bssR i dstSave s1 st = (s1, st) := by
  cases bssR with
  | none => rfl
  | some r =>
    simp only [bssStep]
    rw [if_neg (h r rfl)]

theorem bssStep_out_below (align : Nat) (mem : Nat → Nat) (bssR : Option Region)
    (i dstSave : Nat) (s1 : SectionHeader) (st : OutState) (p : Nat) (hp : p < dstSave) :
    (bssStep align mem bssR i dstSave s1 st).2.out p = st.out p := by
  cases bssR with
  | none => rfl
  | some r =>
    simp only [bssStep]
    by_cases h : r.owner = i
    · rw [if_pos h]
      exact writeBytes_lt _ _ _ _ _ _ (by omega)
    · rw [if_neg h]

theorem bssStep_cursor_ge (align : Nat) (mem : Nat → Nat) (bssR : Option Region)
    (i dstSave : Nat) (s1 : SectionHeader) (st : OutState) (h : dstSave ≤ st.cursor) :
    dstSave ≤ (bssStep align mem bssR i dstSave s1 st).2.cursor := by
  cases bssR with
  | none => exact h
  | some r =>
    simp only [bssStep]
    by_cases ho : r.owner = i
    · rw [if_pos ho]
      exact Nat.le_trans (Nat.le_add_right _ _) (Nat.le_max_right _ _)
    · rw [if_neg ho]
      exact h

/-- The hit case of the bss branch, with the wrapped RVA subtraction
already collapsed to plain subtraction. -/
theorem bssStep_hit (align : Nat) (mem : Nat → Nat) (r : Region)
    (i dstSave : Nat) (s1 : SectionHeader) (st : OutState)
    (hown : r.owner = i) (hva : s1.virtualAddress ≤ r.rva) (hrW : r.rva < W) :
    bssStep align mem (some r) i dstSave s1 st =
      ({ s1 with pointerToRawData := dstSave
                 sizeOfRawData :=
                   max (ROUND_UP (dstSave + (r.rva - s1.virtualAddress) + r.size) align)
                       (dstSave + s1.sizeOfRawData) - dstSave
                 characteristics :=
                   (s1.characteristics &&& SCN_UNINIT_MASK) ||| SCN_INIT_DATA },
       { out := writeBytes st.out (dstSave + (r.rva - s1.virtualAddress)) mem r.rva r.size
         cursor := max (ROUND_UP (dstSave + (r.rva - s1.virtualAddress) + r.size) align)
                       (dstSave + s1.sizeOfRawData)
         bssDumps := st.bssDumps ++ [(r.rva, r.size)] }) := by
  simp only [bssStep]
  rw [if_pos hown, wsub_eq r.rva s1.virtualAddress hva hrW]

/-- A section that owns no region: the step records the new raw-data
pointer (the current cursor), copies raw data, and advances the cursor
by the aligned raw size; dumps and the rest of the header are untouched.
This also covers a section owning only the data region: the data branch
restores the cursor to the end of the raw data, which aligns to the same
place. -/
theorem sectionStep_nonbss (align : Nat) (sb mem : Nat → Nat)
    (dataR bssR bssSR : Option Region) (i : Nat) (s : SectionHeader) (st : OutState)
    (hb : misses bssR i) (hbs : misses bssSR i) (hp : s.pointerToRawData ≠ 0) :
    (sectionStep align sb mem dataR bssR bssSR i s st).1 =
        { s with pointerToRawData := st.cursor } ∧
    (sectionStep align sb mem dataR bssR bssSR i s st).2.cursor =
        ROUND_UP (st.cursor + s.sizeOfRawData) align ∧
    (sectionStep align sb mem dataR bssR bssSR i s st).2.bssDumps = st.bssDumps := by
  simp only [sectionStep]
  rw [bssStep_misses _ _ bssR _ _ _ _ hb]
  dsimp only []
  rw [bssStep_misses _ _ bssSR _ _ _ _ hbs]
  dsimp only []
  rw [if_pos hp]
  refine ⟨rfl, ?_, ?_⟩
  · cases dataR with
    | none =>
      simp only [dataStep]
      rw [rawStep_cursor, ROUND_UP_idem]
    | some r =>
      simp only [dataStep]
      by_cases ho : r.owner = i
      · rw [if_pos ho]
      · rw [if_neg ho, rawStep_cursor, ROUND_UP_idem]
  · rw [dataStep_dumps, rawStep_dumps]

/-- A section that owns the bss region (and not the static region, with
the data region also elsewhere): the step dumps the region, re-aligns,
records pointer and grown size, and flips the characteristics. -/
theorem sectionStep_bssOnly (align : Nat) (sb mem : Nat → Nat)
    (dataR bssSR : Option Region) (r : Region) (i : Nat) (s : SectionHeader)
    (st : OutState)
    (hown : r.owner = i) (hd : misses dataR i) (hbs : misses bssSR i)
    (hp : s.pointerToRawData ≠ 0) (hva : s.virtualAddress ≤ r.rva) (hrW : r.rva < W) :
    (sectionStep align sb mem dataR (some r) bssSR i s st).1 =
      { s with pointerToRawData := st.cursor
               sizeOfRawData :=
                 max (ROUND_UP (st.cursor + (r.rva - s.virtualAddress) + r.size) align)
                     (st.cursor + s.sizeOfRawData) - st.cursor
               characteristics :=
                 (s.characteristics &&& SCN_UNINIT_MASK) ||| SCN_INIT_DATA } ∧
    (sectionStep align sb mem dataR (some r) bssSR i s st).2.cursor =
      ROUND_UP (max (ROUND_UP (st.cursor + (r.rva - s.virtualAddress) + r.size) align)
                    (st.cursor + s.sizeOfRawData)) align ∧
    (sectionStep align sb mem dataR (some r) bssSR i s st).2.bssDumps =
      st.bssDumps ++ [(r.rva, r.size)] := by
  simp only [sectionStep]
  rw [if_pos hp]
  rw [bssStep_hit align mem r i st.cursor { s with pointerToRawData := st.cursor } _
    hown hva hrW]
  dsimp only []
  rw [bssStep_misses _ _ bssSR _ _ _ _ hbs]
  dsimp only []
  rw [dataStep_misses _ _ _ _ _ _ hd, rawStep_dumps]
  exact ⟨rfl, rfl, rfl⟩

/-- Every write the step performs lands at or after the entry cursor. -/
theorem sectionStep_out_below (align : Nat) (sb mem : Nat → Nat)
    (dataR bssR bssSR : Option Region) (i : Nat) (s : SectionHeader) (st : OutState)
    (p : Nat) (hp : p < st.cursor) :
    (sectionStep align sb mem dataR bssR bssSR i s st).2.out p = st.out p := by
  simp only [sectionStep]
  rw [bssStep_out_below _ _ bssSR _ _ _ _ _ hp]
  rw [bssStep_out_below _ _ bssR _ _ _ _ _ hp]
  rw [dataStep_out_below _ _ _ _ _ _ _ hp]
  exact rawStep_out_below _ _ _ _ _ hp

/-- A section that owns nothing has its raw-data range in the output
filled from the source file bytes. -/
theorem sectionStep_out_rawdata (align : Nat) (sb mem : Nat → Nat)
    (dataR bssR bssSR : Option Region) (i : Nat) (s : SectionHeader) (st : OutState)
    (q : Nat) (hd : misses dataR i) (hb : misses bssR i) (hbs : misses bssSR i)
    (h1 : st.cursor ≤ q) (h2 : q < st.cursor + s.sizeOfRawData) :
    (sectionStep align sb mem dataR bssR bssSR i s st).2.out q =
      sb (s.pointerToRawData + (q - st.cursor)) := by
  simp only [sectionStep]
  rw [bssStep_misses _ _ bssSR _ _ _ _ hbs]
  dsimp only []
  rw [bssStep_misses _ _ bssR _ _ _ _ hb]
  dsimp only []
  rw [dataStep_misses _ _ _ _ _ _ hd]
  exact rawStep_out_raw _ _ _ _ _ h1 h2

/-- The cursor never moves backward across a whole section step. -/
theorem sectionStep_cursor_ge (align : Nat) (sb mem : Nat → Nat)
    (dataR bssR bssSR : Option Region) (i : Nat) (s : SectionHeader) (st : OutState) :
    st.cursor ≤ (sectionStep align sb mem dataR bssR bssSR i s st).2.cursor := by
  simp only [sectionStep]
  refine Nat.le_trans ?_ (ROUND_UP_le _ _)
  refine bssStep_cursor_ge _ _ _ _ _ _ _ ?_
  refine bssStep_cursor_ge _ _ _ _ _ _ _ ?_
  refine dataStep_cursor_ge _ _ _ _ _ _ ?_
  rw [rawStep_cursor]
  exact Nat.le_trans (Nat.le_add_right _ _) (ROUND_UP_le _ _)

/-! ### Claim C1: growing bss section processing -/

theorem flipFlags_bit7 (c : Nat) :
    ((c &&& SCN_UNINIT_MASK) ||| SCN_INIT_DATA).testBit 7 = false := by
  have h1 : SCN_UNINIT_MASK.testBit 7 = false := by decide
  have h2 : SCN_INIT_DATA.testBit 7 = false := by decide
  rw [Nat.testBit_lor, Nat.testBit_land, h1, h2]
  simp

theorem flipFlags_bit6 (c : Nat) :
    ((c &&& SCN_UNINIT_MASK) ||| SCN_INIT_DATA).testBit 6 = true := by
  have h2 : SCN_INIT_DATA.testBit 6 = true := by decide
  rw [Nat.testBit_lor, h2]
  simp

/-- A bss-owning section with zero raw data whose region ends short of
the alignment boundary (alignment 512, region of 10 bytes). -/
def c1sec : SectionHeader := mkSec 512 0 4096 16 SCN_UNINIT_DATA

def c1region : Region := { rva := 4096, size := 10, owner := 0 }

def c1state : OutState := { out := fun _ => 0, cursor := 512, bssDumps := [] }

/-- C1 counterexample: the claim says the cursor after the overwrite is
max(end of original raw data, end of overwritten region) and the new
SizeOfRawData is that cursor minus the section start.  Here the original
raw data ends at 512 and the overwritten region ends at 522, so the
claim predicts cursor 522 and size 10; but the code rounds the
overwritten end up to the 512-byte file alignment before taking the
maximum, giving cursor 1024 and SizeOfRawData 512. -/
theorem bss_cursor_rounds_before_max :
    (sectionStep 512 (fun _ => 0) (fun _ => 7) none (some c1region) none 0
        c1sec c1state).2.cursor = 1024 ∧
    (sectionStep 512 (fun _ => 0) (fun _ => 7) none (some c1region) none 0
        c1sec c1state).1.sizeOfRawData = 512 ∧
    (1024 : Nat) ≠ max (512 + 0) (512 + 10) ∧
    (512 : Nat) ≠ max (512 + 0) (512 + 10) - 512 := by
  refine ⟨by decide, by decide, by decide, by decide⟩

/-- C1 (amended): for a section owning the growing bss region (the other
tracked regions owned elsewhere), after the copier processes the section
the write cursor reached by the overwrite equals the maximum of the end
of the section's original raw data and the end of the overwritten region
ROUNDED UP TO THE FILE ALIGNMENT; the section's raw-data pointer becomes
the section's start cursor, its recorded SizeOfRawData becomes exactly
that cursor minus the start, the characteristics flag is changed from
uninitialized-data (bit 7 cleared) to initialized-data (bit 6 set), and
the loop then re-aligns the cursor for the next section. -/
theorem bss_section_growth (align : Nat) (sb mem : Nat → Nat)
    (dataR bssSR : Option Region) (r : Region) (i : Nat) (s : SectionHeader)
    (st : OutState)
    (hown : r.owner = i) (hd : misses dataR i) (hbs : misses bssSR i)
    (hp : s.pointerToRawData ≠ 0) (hva : s.virtualAddress ≤ r.rva) (hrW : r.rva < W) :
    (sectionStep align sb mem dataR (some r) bssSR i s st).1.pointerToRawData =
      st.cursor ∧
    (sectionStep align sb mem dataR (some r) bssSR i s st).1.sizeOfRawData =
      max (ROUND_UP (st.cursor + (r.rva - s.virtualAddress) + r.size) align)
          (st.cursor + s.sizeOfRawData) - st.cursor ∧
    (sectionStep align sb mem dataR (some r) bssSR i s st).2.cursor =
      ROUND_UP (max (ROUND_UP (st.cursor + (r.rva - s.virtualAddress) + r.size) align)
                    (st.cursor + s.sizeOfRawData)) align ∧
    (sectionStep align sb mem dataR (some r) bssSR i s st).1.characteristics.testBit 7
      = false ∧
    (sectionStep align sb mem dataR (some r) bssSR i s st).1.characteristics.testBit 6
      = true := by
  obtain ⟨h1, h2, h3⟩ :=
    sectionStep_bssOnly align sb mem dataR bssSR r i s st hown hd hbs hp hva hrW
  rw [h1, h2]
  exact ⟨rfl, rfl, rfl, flipFlags_bit7 _, flipFlags_bit6 _⟩

theorem bss_section_growth_witness :
    (c1region.owner = 0 ∧ misses none 0 ∧ misses none 0 ∧
     c1sec.pointerToRawData ≠ 0 ∧ c1sec.virtualAddress ≤ c1region.rva ∧
     c1region.rva < W) ∧
    ((sectionStep 512 (fun _ => 0) (fun _ => 7) none (some c1region) none 0
        c1sec c1state).1.pointerToRawData = c1state.cursor ∧
     (sectionStep 512 (fun _ => 0) (fun _ => 7) none (some c1region) none 0
        c1sec c1state).1.sizeOfRawData =
       max (ROUND_UP (c1state.cursor + (c1region.rva - c1sec.virtualAddress) +
           c1region.size) 512)
           (c1state.cursor + c1sec.sizeOfRawData) - c1state.cursor ∧
     (sectionStep 512 (fun _ => 0) (fun _ => 7) none (some c1region) none 0
        c1sec c1state).2.cursor =
       ROUND_UP (max (ROUND_UP (c1state.cursor + (c1region.rva - c1sec.virtualAddress) +
           c1region.size) 512)
           (c1state.cursor + c1sec.sizeOfRawData)) 512 ∧
     (sectionStep 512 (fun _ => 0) (fun _ => 7) none (some c1region) none 0
        c1sec c1state).1.characteristics.testBit 7 = false ∧
     (sectionStep 512 (fun _ => 0) (fun _ => 7) none (some c1region) none 0
        c1sec c1state).1.characteristics.testBit 6 = true) :=
  ⟨⟨rfl, by decide, by decide, by decide, by decide, by decide⟩,
   bss_section_growth 512 (fun _ => 0) (fun _ => 7) none none c1region 0 c1sec c1state
     rfl (by decide) (by decide) (by decide) (by decide) (by decide)⟩

/-! ### Claim C4: overlapping bss regions merge -/

/-- The analysis results that get_section_info caches in module-level
variables: the three tracked regions, given by RVA start, byte size and
owning section index (none when the region is disabled), and the two
growth deltas. -/
structure SectionAnalysis where
  dataStart : Nat
  dataSize : Nat
  dataOwner : Option Nat
  bssStart : Nat
  bssSize : Nat
  bssOwner : Option Nat
  extraBssSize : Nat
  bssStartStatic : Nat
  bssSizeStatic : Nat
  bssOwnerStatic : Option Nat
  extraBssSizeStatic : Nat
deriving DecidableEq

/-- The final block of get_section_info: combine the bss and static-bss
regions into one when they overlap.  endbss and endbssStatic are the
region end addresses (the my_endbss / my_endbss_static symbols); on this
platform (not Alpha) overlap is not forced.  When the regions overlap
but live in different sections the code bails out. -/
def combineBss (endbss endbssStatic : Nat) (a : SectionAnalysis) :
    Except String SectionAnalysis :=
  let overlap : Bool :=
    if a.bssStart < a.bssStartStatic then
      decide (a.bssStartStatic < a.bssStart + a.bssSize)
    else
      decide (a.bssStart < a.bssStartStatic + a.bssSizeStatic)
  if overlap then
    if a.bssOwner ≠ a.bssOwnerStatic then
      Except.error "BSS data not in a single section...bailing"
    else
      Except.ok { a with
        bssStart := min a.bssStart a.bssStartStatic
        bssSize := max endbss endbssStatic - min a.bssStart a.bssStartStatic
        bssOwnerStatic := none
        extraBssSize := max a.extraBssSize a.extraBssSizeStatic
        extraBssSizeStatic := 0 }
  else Except.ok a

/-- The dump a region option contributes at section index i. -/
def hitList (r? : Option Region) (i : Nat) : List (Nat × Nat) :=
  match r? with
  | some r => if r.owner = i then [(r.rva, r.size)] else []
  | none => []

/-- The dump a region option contributes across a range of section
indices. -/
def rangeHits (r? : Option Region) (base len : Nat) : List (Nat × Nat) :=
  match r? with
  | some r => if base ≤ r.owner ∧ r.owner < base + len then [(r.rva, r.size)] else []
  | none => []

/-- How many times the recorded dumps write a given address. -/
def dumpCount (l : List (Nat × Nat)) (x : Nat) : Nat :=
  (l.map (fun pr => if pr.1 ≤ x ∧ x < pr.1 + pr.2 then 1 else 0)).sum

theorem bssStep_dumps (align : Nat) (mem : Nat → Nat) (bssR : Option Region)
    (i dstSave : Nat) (s1 : SectionHeader) (st : OutState) :
    (bssStep align mem bssR i dstSave s1 st).2.bssDumps =
      st.bssDumps ++ hitList bssR i := by
  cases bssR with
  | none => simp [bssStep, hitList]
  | some r =>
    simp only [bssStep, hitList]
    by_cases h : r.owner = i
    · rw [if_pos h, if_pos h]
    · rw [if_neg h, if_neg h]
      simp

theorem sectionStep_dumps (align : Nat) (sb mem : Nat → Nat)
    (dataR bssR bssSR : Option Region) (i : Nat) (s : SectionHeader) (st : OutState) :
    (sectionStep align sb mem dataR bssR bssSR i s st).2.bssDumps =
      st.bssDumps ++ hitList bssR i ++ hitList bssSR i := by
  simp only [sectionStep]
  rw [bssStep_dumps, bssStep_dumps, dataStep_dumps, rawStep_dumps]

/-- Collected dumps of the whole loop when the static region is already
disabled (merged): the bss region is dumped exactly at its owner's index
when the owner is inside the walked range. -/
theorem copySections_dumps_nostatic (align : Nat) (sb mem : Nat → Nat)
    (dataR bssR : Option Region) :
    ∀ (L : List SectionHeader) (i : Nat) (st : OutState),
      (copySections align sb mem dataR bssR none i st L).2.bssDumps =
        st.bssDumps ++ rangeHits bssR i L.length := by
  intro L
  induction L with
  | nil =>
    intro i st
    cases bssR with
    | none => simp [copySections, rangeHits]
    | some r =>
      simp only [copySections, rangeHits, List.length_nil]
      rw [if_neg (by omega)]
      simp
  | cons s rest ih =>
    intro i st
    simp only [copySections]
    rw [ih, sectionStep_dumps]
    cases bssR with
    | none => simp [hitList, rangeHits]
    | some r =>
      simp only [hitList, rangeHits, List.length_cons]
      by_cases h : r.owner = i
      · rw [if_pos h, if_neg (by omega), if_pos (by omega)]
        simp
      · rw [if_neg h]
        by_cases h2 : i + 1 ≤ r.owner ∧ r.owner < i + 1 + rest.length
        · rw [if_pos h2, if_pos (by omega)]
          simp
        · rw [if_neg h2, if_neg (by omega)]
          simp

/-- C4: when the tracked bss and static-bss regions intersect (and, as
the earlier analysis guarantees for intersecting regions, share an
owning section), the analyzer merges them into one region running from
the minimum of the two starts to the maximum of the two ends — exactly
the union of the two address ranges — and disables the static region;
the copier then dumps exactly that union once: the merged region is the
only recorded dump, every address of the union is written exactly once,
and no address outside it is dumped. -/
theorem bss_overlap_merge (a : SectionAnalysis) (endb endbs : Nat) (k : Nat)
    (hend : a.bssStart + a.bssSize = endb)
    (hends : a.bssStartStatic + a.bssSizeStatic = endbs)
    (hint : ∃ x, (a.bssStart ≤ x ∧ x < endb) ∧ (a.bssStartStatic ≤ x ∧ x < endbs))
    (hown : a.bssOwner = some k) (howns : a.bssOwnerStatic = some k) :
    ∃ a2, combineBss endb endbs a = Except.ok a2 ∧
      a2.bssStart = min a.bssStart a.bssStartStatic ∧
      a2.bssStart + a2.bssSize = max endb endbs ∧
      (∀ x, (a2.bssStart ≤ x ∧ x < a2.bssStart + a2.bssSize) ↔
        ((a.bssStart ≤ x ∧ x < endb) ∨ (a.bssStartStatic ≤ x ∧ x < endbs))) ∧
      a2.bssOwnerStatic = none ∧ a2.bssOwner = some k ∧
      (∀ (align : Nat) (sb mem : Nat → Nat) (dataR : Option Region)
         (secs : List SectionHeader) (st : OutState),
        st.bssDumps = [] → k < secs.length →
        (copySections align sb mem dataR
            (Option.map (fun idx => Region.mk a2.bssStart a2.bssSize idx) a2.bssOwner)
            (Option.map (fun idx => Region.mk a2.bssStartStatic a2.bssSizeStatic idx)
              a2.bssOwnerStatic)
            0 st secs).2.bssDumps = [(a2.bssStart, a2.bssSize)] ∧
        (∀ x, dumpCount (copySections align sb mem dataR
            (Option.map (fun idx => Region.mk a2.bssStart a2.bssSize idx) a2.bssOwner)
            (Option.map (fun idx => Region.mk a2.bssStartStatic a2.bssSizeStatic idx)
              a2.bssOwnerStatic)
            0 st secs).2.bssDumps x =
          if (a.bssStart ≤ x ∧ x < endb) ∨ (a.bssStartStatic ≤ x ∧ x < endbs)
          then 1 else 0)) := by
  obtain ⟨w, hw1, hw2⟩ := hint
  have hov : (if a.bssStart < a.bssStartStatic then
      decide (a.bssStartStatic < a.bssStart + a.bssSize)
    else
      decide (a.bssStart < a.bssStartStatic + a.bssSizeStatic)) = true := by
    by_cases h : a.bssStart < a.bssStartStatic
    · rw [if_pos h]
      exact decide_eq_true (by omega)
    · rw [if_neg h]
      exact decide_eq_true (by omega)
  have hne : ¬ a.bssOwner ≠ a.bssOwnerStatic := by
    rw [hown, howns]
    simp
  have hcomb : combineBss endb endbs a = Except.ok { a with
      bssStart := min a.bssStart a.bssStartStatic
      bssSize := max endb endbs - min a.bssStart a.bssStartStatic
      bssOwnerStatic := none
      extraBssSize := max a.extraBssSize a.extraBssSizeStatic
      extraBssSizeStatic := 0 } := by
    simp only [combineBss]
    rw [hov, if_pos rfl, if_neg hne]
  refine ⟨_, hcomb, ?_, ?_, ?_, ?_, ?_, ?_⟩
  · rfl
  · simp only []
    omega
  · intro x
    simp only []
    constructor
    · intro hx
      omega
    · intro hx
      omega
  · rfl
  · simp only []
    exact hown
  · intro align sb mem dataR secs st hst hk
    simp only [hown, Option.map]
    constructor
    · rw [copySections_dumps_nostatic, hst]
      simp only [rangeHits]
      rw [if_pos (by omega)]
      simp
    · intro x
      rw [copySections_dumps_nostatic, hst]
      simp only [rangeHits]
      rw [if_pos (by omega)]
      simp only [List.nil_append, dumpCount, List.map, List.sum_cons, List.sum_nil]
      by_cases hx : (a.bssStart ≤ x ∧ x < endb) ∨ (a.bssStartStatic ≤ x ∧ x < endbs)
      · rw [if_pos hx, if_pos (by omega)]
        omega
      · rw [if_neg hx, if_neg (by omega)]
        omega

/-- Overlapping bss and static-bss regions sharing section 0:
[100, 120) and [110, 130). -/
def c4analysis : SectionAnalysis :=
  { dataStart := 0, dataSize := 0, dataOwner := none
    bssStart := 100, bssSize := 20, bssOwner := some 0, extraBssSize := 4
    bssStartStatic := 110, bssSizeStatic := 20, bssOwnerStatic := some 0
    extraBssSizeStatic := 2 }

theorem bss_overlap_merge_witness :
    (c4analysis.bssStart + c4analysis.bssSize = 120 ∧
     c4analysis.bssStartStatic + c4analysis.bssSizeStatic = 130 ∧
     (∃ x, (c4analysis.bssStart ≤ x ∧ x < 120) ∧
       (c4analysis.bssStartStatic ≤ x ∧ x < 130)) ∧
     c4analysis.bssOwner = some 0 ∧ c4analysis.bssOwnerStatic = some 0) ∧
    (∃ a2, combineBss 120 130 c4analysis = Except.ok a2 ∧
      a2.bssStart = min c4analysis.bssStart c4analysis.bssStartStatic ∧
      a2.bssStart + a2.bssSize = max 120 130 ∧
      (∀ x, (a2.bssStart ≤ x ∧ x < a2.bssStart + a2.bssSize) ↔
        ((c4analysis.bssStart ≤ x ∧ x < 120) ∨
         (c4analysis.bssStartStatic ≤ x ∧ x < 130))) ∧
      a2.bssOwnerStatic = none ∧ a2.bssOwner = some 0 ∧
      (∀ (align : Nat) (sb mem : Nat → Nat) (dataR : Option Region)
         (secs : List SectionHeader) (st : OutState),
        st.bssDumps = [] → 0 < secs.length →
        (copySections align sb mem dataR
            (Option.map (fun idx => Region.mk a2.bssStart a2.bssSize idx) a2.bssOwner)
            (Option.map (fun idx => Region.mk a2.bssStartStatic a2.bssSizeStatic idx)
              a2.bssOwnerStatic)
            0 st secs).2.bssDumps = [(a2.bssStart, a2.bssSize)] ∧
        (∀ x, dumpCount (copySections align sb mem dataR
            (Option.map (fun idx => Region.mk a2.bssStart a2.bssSize idx) a2.bssOwner)
            (Option.map (fun idx => Region.mk a2.bssStartStatic a2.bssSizeStatic idx)
              a2.bssOwnerStatic)
            0 st secs).2.bssDumps x =
          if (c4analysis.bssStart ≤ x ∧ x < 120) ∨
             (c4analysis.bssStartStatic ≤ x ∧ x < 130)
          then 1 else 0))) :=
  ⟨⟨by decide, by decide, ⟨110, by decide, by decide⟩, rfl, rfl⟩,
   bss_overlap_merge c4analysis 120 130 0 (by decide) (by decide)
     ⟨110, by decide, by decide⟩ rfl rfl⟩

/-! ### get_section_info, the whole copier, and unexec -/

/-- The header fields of the image that the transform reads or patches.
headerRest stands for every other header byte, which the transform
copies verbatim and never touches. -/
structure NTHeader where
  fileAlignment : Nat
  sizeOfHeaders : Nat
  sizeOfInitializedData : Nat
  sizeOfUninitData : Nat
  pointerToSymbolTable : Nat
  checkSum : Nat
  debugDirVA : Nat
  debugDirSize : Nat
  headerRest : Nat
deriving DecidableEq

/-- A mapped executable image: DOS magic, NT signature, parsed header,
the byte count of DOS header + NT header + section table (the region
copied verbatim before the first section), the parsed section table, the
raw file bytes and the file size. -/
structure ImageFile where
  eMagic : Nat
  ntSignature : Nat
  header : NTHeader
  headerSize : Nat
  sections : List SectionHeader
  bytes : Nat → Nat
  size : Nat

/-- The destination image produced by the copier. -/
structure DstImage where
  header : NTHeader
  sections : List SectionHeader
  out : Nat → Nat
  size : Nat
  bssDumps : List (Nat × Nat)

/-- Modelled from the spec: rva_to_section (defined in a heap-support
file outside this source tree) scans the table in order for the section
whose virtual address range contains the given RVA, returning its index
(NULL, i.e. none, when no section contains it). -/
def rvaToSectionGo (rva : Nat) : Nat → List SectionHeader → Option Nat
  | _, [] => none
  | i, s :: rest =>
    if s.virtualAddress ≤ rva ∧ rva < s.virtualAddress + s.virtualSize then some i
    else rvaToSectionGo rva (i + 1) rest

def rva_to_section (rva : Nat) (secs : List SectionHeader) : Option Nat :=
  rvaToSectionGo rva 0 secs

/-- "EMDATA" as name bytes. -/
def emdataBytes : List Nat := [69, 77, 68, 65, 84, 65]

/-- find_section returning the index of the first match (pointer
identity into the section table). -/
def findSectionIdx (name : List Nat) : Nat → List SectionHeader → Option Nat
  | _, [] => none
  | i, s :: rest =>
    if cstrName s = name then some i else findSectionIdx name (i + 1) rest

/-- The section containment check both region validations perform: the
region's two bounding symbols must map to the same section (by pointer,
i.e. index); otherwise print the diagnostic and exit. -/
def regionOwner (secs : List SectionHeader) (a b : Nat) (msg : String) :
    Except String (Option Nat) :=
  if rva_to_section a secs ≠ rva_to_section b secs then Except.error msg
  else Except.ok (rva_to_section a secs)

def emptySection : SectionHeader := mkSec 0 0 0 0 0

def sectionAt (secs : List SectionHeader) (o : Option Nat) : SectionHeader :=
  match o with
  | some i => (secs.get? i).getD emptySection
  | none => emptySection

/-- The RVAs of the six boundary symbols (my_begdata, my_edata,
my_begbss, my_endbss, my_begbss_static, my_endbss_static) supplied by
the running process image. -/
structure UnexSymbols where
  begdata : Nat
  edata : Nat
  begbss : Nat
  endbss : Nat
  begbssStatic : Nat
  endbssStatic : Nat
deriving DecidableEq

/-- The data-region analysis: prefer the EMDATA section; fall back to
the my_begdata/my_edata symbols, checked to lie in one section. -/
def dataRegionInfo (img : ImageFile) (syms : UnexSymbols) :
    Except String (Nat × Nat × Option Nat) :=
  match findSectionIdx emdataBytes 0 img.sections with
  | some di =>
    Except.ok (((img.sections.get? di).getD emptySection).virtualAddress,
      ((img.sections.get? di).getD emptySection).virtualSize, some di)
  | none =>
    match regionOwner img.sections syms.begdata syms.edata
      "Initialized data is not in a single section...bailing" with
    | Except.error e => Except.error e
    | Except.ok o => Except.ok (syms.begdata, wsub syms.edata syms.begdata, o)

/-- get_section_info: check the DOS and NT signatures, locate the three
regions and their owning sections (aborting when a region spans more
than one section), compute the two growth deltas, and merge overlapping
bss regions.  All of this happens before the output file exists. -/
def get_section_info (img : ImageFile) (syms : UnexSymbols) :
    Except String SectionAnalysis :=
  if img.eMagic ≠ 23117 then Except.error "Unknown EXE header...bailing"
  else if img.ntSignature ≠ 17744 then
    Except.error "Invalid IMAGE_NT_SIGNATURE...bailing"
  else
    match dataRegionInfo img syms with
    | Except.error e => Except.error e
    | Except.ok dinfo =>
      match regionOwner img.sections syms.begbss syms.endbss
        "Uninitialized data is not in a single section...bailing" with
      | Except.error e => Except.error e
      | Except.ok bOwn =>
        let bsec := sectionAt img.sections bOwn
        let extraBss := wsub (ROUND_UP (wsub syms.endbss bsec.virtualAddress)
          img.header.fileAlignment) bsec.sizeOfRawData
        match regionOwner img.sections syms.begbssStatic syms.endbssStatic
          "Uninitialized static data is not in a single section...bailing" with
        | Except.error e => Except.error e
        | Except.ok sOwn =>
          let ssec := sectionAt img.sections sOwn
          let extraS := wsub (ROUND_UP (wsub syms.endbssStatic ssec.virtualAddress)
            img.header.fileAlignment) ssec.sizeOfRawData
          combineBss syms.endbss syms.endbssStatic
            { dataStart := dinfo.1, dataSize := dinfo.2.1, dataOwner := dinfo.2.2
              bssStart := syms.begbss, bssSize := wsub syms.endbss syms.begbss
              bssOwner := bOwn, extraBssSize := extraBss
              bssStartStatic := syms.begbssStatic
              bssSizeStatic := wsub syms.endbssStatic syms.begbssStatic
              bssOwnerStatic := sOwn, extraBssSizeStatic := extraS }

def readLE4 (out : Nat → Nat) (off : Nat) : Nat :=
  out off % 256 + 256 * (out (off + 1) % 256) + 65536 * (out (off + 2) % 256) +
    16777216 * (out (off + 3) % 256)

def writeLE4 (out : Nat → Nat) (off v : Nat) : Nat → Nat :=
  fun p =>
    if p = off then v % 256
    else if p = off + 1 then v / 256 % 256
    else if p = off + 2 then v / 65536 % 256
    else if p = off + 3 then v / 16777216 % 256
    else out p

/-- ADJUST_OFFSET applied to one debug directory entry's raw-data
pointer (a 4-byte little-endian field at offset 24 of the 28-byte
entry; off points at that field). -/
def patchDebugEntry (srcSecs dstSecs : List SectionHeader) (off : Nat)
    (out : Nat → Nat) : Nat → Nat :=
  if readLE4 out off ≠ 0 then
    writeLE4 out off (relocate_offset (readLE4 out off) srcSecs dstSecs)
  else out

def patchDebugEntries (srcSecs dstSecs : List SectionHeader) (base : Nat) :
    Nat → (Nat → Nat) → Nat → Nat
  | 0, out => out
  | n + 1, out =>
    patchDebugEntries srcSecs dstSecs base n
      (patchDebugEntry srcSecs dstSecs (base + 28 * n + 24) out)

/-- The state after copying the DOS header, NT header and section table
verbatim and zero-padding up to the aligned header size (the cursor
position recorded as the new SizeOfHeaders). -/
def headerState (src : ImageFile) : OutState :=
  { out := writeBytes (writeBytes (fun _ => 0) 0 src.bytes 0 src.headerSize)
      src.headerSize (fun _ => 0) 0
      (ROUND_UP src.headerSize src.header.fileAlignment - src.headerSize)
    cursor := ROUND_UP src.headerSize src.header.fileAlignment
    bssDumps := [] }

/-- Copy the remainder of the source image: everything after the
alignment-rounded end of the last section with a nonzero raw-data
pointer. -/
def trailerCopy (src : ImageFile) (st : OutState) : OutState :=
  match findLastNonzero src.sections with
  | some t =>
    { out := writeBytes st.out st.cursor src.bytes
        (ROUND_UP (t.pointerToRawData + t.sizeOfRawData) src.header.fileAlignment)
        (wsub src.size
          (ROUND_UP (t.pointerToRawData + t.sizeOfRawData) src.header.fileAlignment))
      cursor := st.cursor + wsub src.size
        (ROUND_UP (t.pointerToRawData + t.sizeOfRawData) src.header.fileAlignment)
      bssDumps := st.bssDumps }
  | none => st

/-- Recomputed SizeOfInitializedData: sum of aligned virtual sizes of
destination sections flagged as initialized data. -/
def sumInitOf (align : Nat) (dsecs : List SectionHeader) : Nat :=
  (dsecs.map (fun d =>
    if d.characteristics &&& SCN_INIT_DATA ≠ 0
    then ROUND_UP d.virtualSize align else 0)).sum

/-- Recomputed SizeOfUninitializedData (the else-if branch of the C
loop). -/
def sumUninitOf (align : Nat) (dsecs : List SectionHeader) : Nat :=
  (dsecs.map (fun d =>
    if d.characteristics &&& SCN_INIT_DATA ≠ 0 then 0
    else if d.characteristics &&& SCN_UNINIT_DATA ≠ 0
    then ROUND_UP d.virtualSize align else 0)).sum

/-- ADJUST_OFFSET on one destination section's line-number pointer. -/
def patchLineno (srcSecs dsecs : List SectionHeader) (d : SectionHeader) :
    SectionHeader :=
  if d.pointerToLinenumbers ≠ 0 then
    { d with pointerToLinenumbers :=
        relocate_offset d.pointerToLinenumbers srcSecs dsecs }
  else d

def patchLinenos (srcSecs dsecs : List SectionHeader) : List SectionHeader :=
  dsecs.map (patchLineno srcSecs dsecs)

/-- ADJUST_OFFSET on the symbol table pointer. -/
def patchSymPtr (src : ImageFile) (dsecs : List SectionHeader) : Nat :=
  if src.header.pointerToSymbolTable ≠ 0 then
    relocate_offset src.header.pointerToSymbolTable src.sections dsecs
  else src.header.pointerToSymbolTable

/-- Relocate the raw-data pointers in the debug directory entries when a
section contains the debug directory; otherwise the bytes are
untouched. -/
def debugPatchOut (src : ImageFile) (dsecs : List SectionHeader)
    (out : Nat → Nat) : Nat → Nat :=
  match rva_to_section src.header.debugDirVA dsecs with
  | some si =>
    patchDebugEntries src.sections dsecs
      (((dsecs.get? si).getD emptySection).pointerToRawData +
        wsub src.header.debugDirVA ((dsecs.get? si).getD emptySection).virtualAddress)
      (src.header.debugDirSize / 28) out
  | none => out

/-- copy_executable_and_dump_data: copy the headers and section table
verbatim and align (recording the new header size), copy every section
with the region overwrites, copy the remainder of the source after the
last nonzero raw data, record the final size, recompute the aggregate
data sizes, and relocate the per-section line-number pointers, the
symbol table pointer and the debug directory entries. -/
def copy_executable_and_dump_data (src : ImageFile) (mem : Nat → Nat)
    (dataR bssR bssSR : Option Region) : DstImage :=
  let lp := copySections src.header.fileAlignment src.bytes mem dataR bssR bssSR
    0 (headerState src) src.sections
  let tr := trailerCopy src lp.2
  { header := { src.header with
      sizeOfHeaders := ROUND_UP src.headerSize src.header.fileAlignment
      sizeOfInitializedData := sumInitOf src.header.fileAlignment lp.1
      sizeOfUninitData := sumUninitOf src.header.fileAlignment lp.1
      pointerToSymbolTable := patchSymPtr src lp.1 }
    sections := patchLinenos src.sections lp.1
    out := debugPatchOut src lp.1 tr.out
    size := tr.cursor
    bssDumps := tr.bssDumps }

/-- unexec, after the file names are fixed: analyze the running image;
on analysis failure the process exits before the output file is created
(result none).  Otherwise copy and dump, then set the checksum from the
imagehlp facility when available, else leave it zero. -/
def unexec_model (img : ImageFile) (syms : UnexSymbols) (mem : Nat → Nat)
    (chkAvail : Bool) (chk : Nat) : Option DstImage :=
  match get_section_info img syms with
  | Except.error _ => none
  | Except.ok a =>
    let dataR := Option.map (fun i => Region.mk a.dataStart a.dataSize i) a.dataOwner
    let bssR := Option.map (fun i => Region.mk a.bssStart a.bssSize i) a.bssOwner
    let bssSR := Option.map (fun i => Region.mk a.bssStartStatic a.bssSizeStatic i)
      a.bssOwnerStatic
    let d := copy_executable_and_dump_data img mem dataR bssR bssSR
    some { d with header := { d.header with checkSum := if chkAvail then chk else 0 } }

/-! ### Claim C5: a region spanning sections aborts during analysis -/

/-- A virtual address lies inside a section's address range. -/
def containsRva (s : SectionHeader) (x : Nat) : Prop :=
  s.virtualAddress ≤ x ∧ x < s.virtualAddress + s.virtualSize

instance (s : SectionHeader) (x : Nat) : Decidable (containsRva s x) := by
  unfold containsRva
  infer_instance

theorem rvaToSectionGo_ge (rva : Nat) : ∀ (L : List SectionHeader) (base i : Nat),
    rvaToSectionGo rva base L = some i → base ≤ i := by
  intro L
  induction L with
  | nil => intro base i h; exact absurd h (by simp [rvaToSectionGo])
  | cons s rest ih =>
    intro base i h
    simp only [rvaToSectionGo] at h
    by_cases hc : s.virtualAddress ≤ rva ∧ rva < s.virtualAddress + s.virtualSize
    · rw [if_pos hc] at h
      have : base = i := by injection h
      omega
    · rw [if_neg hc] at h
      have := ih (base + 1) i h
      omega

/-- If two RVAs map to the same section index, one section of the table
contains both. -/
theorem rvaToSectionGo_same (rva1 rva2 : Nat) :
    ∀ (L : List SectionHeader) (base i : Nat),
      rvaToSectionGo rva1 base L = some i → rvaToSectionGo rva2 base L = some i →
      ∃ s ∈ L, containsRva s rva1 ∧ containsRva s rva2 := by
  intro L
  induction L with
  | nil => intro base i h; exact absurd h (by simp [rvaToSectionGo])
  | cons s rest ih =>
    intro base i h1 h2
    simp only [rvaToSectionGo] at h1 h2
    by_cases hc1 : s.virtualAddress ≤ rva1 ∧ rva1 < s.virtualAddress + s.virtualSize
    · rw [if_pos hc1] at h1
      have hib : base = i := by injection h1
      by_cases hc2 : s.virtualAddress ≤ rva2 ∧ rva2 < s.virtualAddress + s.virtualSize
      · exact ⟨s, by simp, hc1, hc2⟩
      · rw [if_neg hc2] at h2
        have := rvaToSectionGo_ge rva2 rest (base + 1) i h2
        omega
    · rw [if_neg hc1] at h1
      by_cases hc2 : s.virtualAddress ≤ rva2 ∧ rva2 < s.virtualAddress + s.virtualSize
      · rw [if_pos hc2] at h2
        have hib : base = i := by injection h2
        have := rvaToSectionGo_ge rva1 rest (base + 1) i h1
        omega
      · rw [if_neg hc2] at h2
        obtain ⟨t, ht, hcon⟩ := ih (base + 1) i h1 h2
        exact ⟨t, List.mem_cons_of_mem s ht, hcon⟩

/-- When the region's start lies in some section but no single section
contains both endpoints, the two rva_to_section lookups disagree — the
code's span check fires. -/
theorem rva_to_section_ne (secs : List SectionHeader) (a b : Nat)
    (hsome : ∃ i, rva_to_section a secs = some i)
    (hnot : ¬ ∃ s ∈ secs, containsRva s a ∧ containsRva s b) :
    rva_to_section a secs ≠ rva_to_section b secs := by
  obtain ⟨i, hi⟩ := hsome
  intro heq
  have hb : rva_to_section b secs = some i := by rw [← heq]; exact hi
  exact hnot (rvaToSectionGo_same a b secs 0 i hi hb)

theorem regionOwner_error (secs : List SectionHeader) (a b : Nat) (msg : String)
    (h : rva_to_section a secs ≠ rva_to_section b secs) :
    regionOwner secs a b msg = Except.error msg := by
  simp only [regionOwner]
  rw [if_pos h]

/-- C5: if any tracked region (initialized data — when there is no
EMDATA section and the fallback symbols are used —, bss, or static bss)
does not lie entirely within one section, get_section_info terminates
with the corresponding diagnostic, and unexec produces no output image:
the analysis runs before the output file is created, so nothing is
written. -/
theorem region_span_aborts_before_output (img : ImageFile) (syms : UnexSymbols)
    (hspan :
      (findSectionIdx emdataBytes 0 img.sections = none ∧
        (∃ i, rva_to_section syms.begdata img.sections = some i) ∧
        ¬ ∃ s ∈ img.sections, containsRva s syms.begdata ∧ containsRva s syms.edata) ∨
      ((∃ i, rva_to_section syms.begbss img.sections = some i) ∧
        ¬ ∃ s ∈ img.sections, containsRva s syms.begbss ∧ containsRva s syms.endbss) ∨
      ((∃ i, rva_to_section syms.begbssStatic img.sections = some i) ∧
        ¬ ∃ s ∈ img.sections,
          containsRva s syms.begbssStatic ∧ containsRva s syms.endbssStatic)) :
    (∃ e, get_section_info img syms = Except.error e) ∧
    ∀ (mem : Nat → Nat) (chkAvail : Bool) (chk : Nat),
      unexec_model img syms mem chkAvail chk = none := by
  have herr : ∃ e, get_section_info img syms = Except.error e := by
    simp only [get_section_info]
    by_cases hm : img.eMagic ≠ 23117
    · rw [if_pos hm]
      exact ⟨_, rfl⟩
    · rw [if_neg hm]
      by_cases hn : img.ntSignature ≠ 17744
      · rw [if_pos hn]
        exact ⟨_, rfl⟩
      · rw [if_neg hn]
        rcases hspan with ⟨hem, hds, hdn⟩ | ⟨hbs, hbn⟩ | ⟨hss, hsn⟩
        · have hdr : dataRegionInfo img syms =
              Except.error "Initialized data is not in a single section...bailing" := by
            simp only [dataRegionInfo]
            rw [hem, regionOwner_error _ _ _ _ (rva_to_section_ne _ _ _ hds hdn)]
          rw [hdr]
          exact ⟨_, rfl⟩
        · have hro := regionOwner_error img.sections syms.begbss syms.endbss
            "Uninitialized data is not in a single section...bailing"
            (rva_to_section_ne _ _ _ hbs hbn)
          cases hd : dataRegionInfo img syms with
          | error e => exact ⟨e, rfl⟩
          | ok dinfo =>
            rw [hro]
            exact ⟨_, rfl⟩
        · have hro := regionOwner_error img.sections syms.begbssStatic syms.endbssStatic
            "Uninitialized static data is not in a single section...bailing"
            (rva_to_section_ne _ _ _ hss hsn)
          cases hd : dataRegionInfo img syms with
          | error e => exact ⟨e, rfl⟩
          | ok dinfo =>
            cases hb : regionOwner img.sections syms.begbss syms.endbss
              "Uninitialized data is not in a single section...bailing" with
            | error e => exact ⟨e, rfl⟩
            | ok bOwn =>
              rw [hro]
              exact ⟨_, rfl⟩
  refine ⟨herr, ?_⟩
  intro mem chkAvail chk
  obtain ⟨e, he⟩ := herr
  simp [unexec_model, he]

/-- An image with two sections at [4096, 4608) and [8192, 8704), and a
bss region running from 4100 to 8200 — spanning both sections. -/
def c5img : ImageFile :=
  { eMagic := 23117, ntSignature := 17744
    header := { fileAlignment := 512, sizeOfHeaders := 512, sizeOfInitializedData := 0
                sizeOfUninitData := 0, pointerToSymbolTable := 0, checkSum := 0
                debugDirVA := 0, debugDirSize := 0, headerRest := 0 }
    headerSize := 512
    sections := [mkSec 512 512 4096 512 64, mkSec 1024 512 8192 512 64]
    bytes := fun _ => 0
    size := 1536 }

def c5syms : UnexSymbols :=
  { begdata := 4096, edata := 4100, begbss := 4100, endbss := 8200
    begbssStatic := 4096, endbssStatic := 4100 }

theorem region_span_aborts_before_output_witness :
    ((∃ i, rva_to_section c5syms.begbss c5img.sections = some i) ∧
     ¬ ∃ s ∈ c5img.sections,
       containsRva s c5syms.begbss ∧ containsRva s c5syms.endbss) ∧
    ((∃ e, get_section_info c5img c5syms = Except.error e) ∧
     ∀ (mem : Nat → Nat) (chkAvail : Bool) (chk : Nat),
       unexec_model c5img c5syms mem chkAvail chk = none) :=
  ⟨⟨⟨0, by decide⟩, by decide⟩,
   region_span_aborts_before_output c5img c5syms
     (Or.inr (Or.inl ⟨⟨0, by decide⟩, by decide⟩))⟩

/-! ### Claims C3 and C6: layout invariants of the whole copy -/

/-- The well-formed file layout the copier relies on: each section's raw
data starts exactly where the previous one ends (no gaps), raw-data
pointers are nonzero, and every raw size is a multiple of the file
alignment (as the PE format requires of SizeOfRawData). -/
def Contiguous (align : Nat) : Nat → List SectionHeader → Prop
  | _, [] => True
  | p, s :: rest =>
    s.pointerToRawData = p ∧ s.pointerToRawData ≠ 0 ∧ align ∣ s.sizeOfRawData ∧
    Contiguous align (p + s.sizeOfRawData) rest

def contigDec (align : Nat) : (p : Nat) → (L : List SectionHeader) →
    Decidable (Contiguous align p L)
  | _, [] => isTrue trivial
  | p, s :: rest =>
    have : Decidable (Contiguous align (p + s.sizeOfRawData) rest) :=
      contigDec align (p + s.sizeOfRawData) rest
    by unfold Contiguous; infer_instance

instance (align p : Nat) (L : List SectionHeader) : Decidable (Contiguous align p L) :=
  contigDec align p L

/-- Total raw-data bytes of a run of sections. -/
def sumSizes (L : List SectionHeader) : Nat := (L.map (fun s => s.sizeOfRawData)).sum

theorem sumSizes_nil : sumSizes [] = 0 := rfl

theorem sumSizes_cons (s : SectionHeader) (L : List SectionHeader) :
    sumSizes (s :: L) = s.sizeOfRawData + sumSizes L := by
  simp [sumSizes]

theorem Contiguous_dvd_sum (align : Nat) :
    ∀ (L : List SectionHeader) (p : Nat), Contiguous align p L → align ∣ sumSizes L := by
  intro L
  induction L with
  | nil => intro p _; exact ⟨0, rfl⟩
  | cons s rest ih =>
    intro p hc
    obtain ⟨_, _, hdvd, hrest⟩ := hc
    rw [sumSizes_cons]
    exact Nat.dvd_add hdvd (ih _ hrest)

theorem findLastNonzero_cons_some (s : SectionHeader) (rest : List SectionHeader)
    (t : SectionHeader) (h : findLastNonzero rest = some t) :
    findLastNonzero (s :: rest) = some t := by
  simp only [findLastNonzero]
  rw [h]

/-- For a contiguous table the backward walk of the trailer copy finds a
section whose raw data ends exactly at the end of the whole run. -/
theorem findLastNonzero_contiguous (align : Nat) :
    ∀ (L : List SectionHeader) (p : Nat), Contiguous align p L → L ≠ [] →
      ∃ t, findLastNonzero L = some t ∧
        t.pointerToRawData + t.sizeOfRawData = p + sumSizes L := by
  intro L
  induction L with
  | nil => intro p _ h; exact absurd rfl h
  | cons s rest ih =>
    intro p hc _
    obtain ⟨hp, hnz, _, hrest⟩ := hc
    cases rest with
    | nil =>
      refine ⟨s, ?_, ?_⟩
      · simp [findLastNonzero, hnz]
      · rw [sumSizes_cons, sumSizes_nil]
        omega
    | cons s2 rest2 =>
      obtain ⟨t, ht, hte⟩ := ih (p + s.sizeOfRawData) hrest (by simp)
      refine ⟨t, findLastNonzero_cons_some s (s2 :: rest2) t ht, ?_⟩
      rw [hte]
      simp only [sumSizes_cons]
      omega

theorem rvaToSectionGo_none (rva : Nat) : ∀ (L : List SectionHeader) (base : Nat),
    (∀ s ∈ L, ¬ containsRva s rva) → rvaToSectionGo rva base L = none := by
  intro L
  induction L with
  | nil => intro base _; rfl
  | cons s rest ih =>
    intro base h
    simp only [rvaToSectionGo]
    rw [if_neg (show ¬(s.virtualAddress ≤ rva ∧ rva < s.virtualAddress + s.virtualSize)
      from h s (by simp))]
    exact ih (base + 1) (fun t ht => h t (List.mem_cons_of_mem s ht))

/-- Unrolling the copy loop over an appended table. -/
theorem copySections_append (align : Nat) (sb mem : Nat → Nat)
    (dataR bssR bssSR : Option Region) :
    ∀ (A B : List SectionHeader) (base : Nat) (st : OutState),
      copySections align sb mem dataR bssR bssSR base st (A ++ B) =
        ((copySections align sb mem dataR bssR bssSR base st A).1 ++
          (copySections align sb mem dataR bssR bssSR (base + A.length)
            (copySections align sb mem dataR bssR bssSR base st A).2 B).1,
         (copySections align sb mem dataR bssR bssSR (base + A.length)
            (copySections align sb mem dataR bssR bssSR base st A).2 B).2) := by
  intro A
  induction A with
  | nil =>
    intro B base st
    simp [copySections]
  | cons s rest ih =>
    intro B base st
    simp only [List.cons_append, copySections, List.length_cons, List.append_eq]
    rw [ih]
    have harr : base + 1 + rest.length = base + (rest.length + 1) := by omega
    rw [harr]

/-- The words copied for sections that own no bss region: walking a
contiguous run whose entry cursor is shifted by sh, the loop shifts
every raw-data pointer by sh, advances the cursor over the run, records
no dumps, leaves bytes below the entry cursor alone, and fills each
non-data-owning section's raw-data range with the source file bytes. -/
theorem copySections_segment (align : Nat) (sb mem : Nat → Nat)
    (dataR bssR : Option Region) :
    ∀ (L : List SectionHeader) (base : Nat) (st : OutState) (p sh : Nat),
      0 < align → align ∣ p → align ∣ sh →
      Contiguous align p L →
      st.cursor = p + sh →
      (∀ r, bssR = some r → r.owner < base ∨ base + L.length ≤ r.owner) →
      (copySections align sb mem dataR bssR none base st L).1 =
        L.map (fun s => { s with pointerToRawData := s.pointerToRawData + sh }) ∧
      (copySections align sb mem dataR bssR none base st L).2.cursor =
        p + sumSizes L + sh ∧
      (copySections align sb mem dataR bssR none base st L).2.bssDumps =
        st.bssDumps ∧
      (∀ q, q < st.cursor →
        (copySections align sb mem dataR bssR none base st L).2.out q = st.out q) ∧
      (∀ j, (hj : j < L.length) → misses dataR (base + j) →
        ∀ t, t < (L.get ⟨j, hj⟩).sizeOfRawData →
          (copySections align sb mem dataR bssR none base st L).2.out
            ((L.get ⟨j, hj⟩).pointerToRawData + sh + t) =
            sb ((L.get ⟨j, hj⟩).pointerToRawData + t)) := by
  intro L
  induction L with
  | nil =>
    intro base st p sh ha hdp hdsh hc hcur hout
    refine ⟨rfl, ?_, rfl, fun q hq => rfl, fun j hj => absurd hj (by simp)⟩
    rw [sumSizes_nil]
    simp only [copySections]
    omega
  | cons s rest ih =>
    intro base st p sh ha hdp hdsh hc hcur hout
    obtain ⟨hp, hnz, hdvd, hrest⟩ := hc
    have hbmiss : misses bssR base := by
      intro r hr
      rcases hout r hr with h | h
      · omega
      · simp only [List.length_cons] at h
        omega
    have hsmiss : misses (none : Option Region) base := fun r hr => by cases hr
    obtain ⟨hstep1, hstep2, hstep3⟩ :=
      sectionStep_nonbss align sb mem dataR bssR none base s st hbmiss hsmiss hnz
    have hcs : (sectionStep align sb mem dataR bssR none base s st).2.cursor =
        (p + s.sizeOfRawData) + sh := by
      rw [hstep2, hcur]
      have harr : p + sh + s.sizeOfRawData = p + s.sizeOfRawData + sh := by omega
      rw [harr, ROUND_UP_eq_self _ _ (Nat.dvd_add (Nat.dvd_add hdp hdvd) hdsh)]
    have hout' : ∀ r, bssR = some r →
        r.owner < base + 1 ∨ (base + 1) + rest.length ≤ r.owner := by
      intro r hr
      rcases hout r hr with h | h
      · left; omega
      · right
        simp only [List.length_cons] at h
        omega
    obtain ⟨ih1, ih2, ih3, ih4, ih5⟩ :=
      ih (base + 1) (sectionStep align sb mem dataR bssR none base s st).2
        (p + s.sizeOfRawData) sh ha (Nat.dvd_add hdp hdvd) hdsh hrest hcs hout'
    simp only [copySections]
    refine ⟨?_, ?_, ?_, ?_, ?_⟩
    · simp only [List.map]
      rw [hstep1, ih1, hcur, hp]
    · rw [ih2, sumSizes_cons]
      omega
    · rw [ih3, hstep3]
    · intro q hq
      have hq2 : q < (sectionStep align sb mem dataR bssR none base s st).2.cursor := by
        rw [hcs]
        rw [hcur] at hq
        omega
      rw [ih4 q hq2]
      exact sectionStep_out_below align sb mem dataR bssR none base s st q hq
    · intro j hj hm t ht
      match j with
      | 0 =>
        have hget : (s :: rest).get ⟨0, hj⟩ = s := rfl
        rw [hget] at ht ⊢
        have hpos : s.pointerToRawData + sh + t = st.cursor + t := by
          rw [hcur, hp]
        rw [hpos]
        have hq2 : st.cursor + t <
            (sectionStep align sb mem dataR bssR none base s st).2.cursor := by
          rw [hcs, hcur]
          omega
        rw [ih4 _ hq2]
        have hm0 : misses dataR base := by simpa using hm
        rw [sectionStep_out_rawdata align sb mem dataR bssR none base s st
          (st.cursor + t) hm0 hbmiss hsmiss (Nat.le_add_right _ _) (by omega)]
        congr 1
        omega
      | j + 1 =>
        have hj' : j < rest.length := by
          simp only [List.length_cons] at hj
          omega
        have hget : (s :: rest).get ⟨j + 1, hj⟩ = rest.get ⟨j, hj'⟩ := rfl
        rw [hget] at ht ⊢
        have hm' : misses dataR ((base + 1) + j) := by
          have harr : base + (j + 1) = (base + 1) + j := by omega
          rw [harr] at hm
          exact hm
        exact ih5 j hj' hm' t ht

theorem listGet_append_left {α : Type} (A B : List α) (j : Nat)
    (hj : j < A.length) (h2 : j < (A ++ B).length) :
    (A ++ B).get ⟨j, h2⟩ = A.get ⟨j, hj⟩ := by
  simp only [List.get_eq_getElem, Fin.val_mk]
  rw [List.getElem_append_left]

theorem listGet_append_right {α : Type} (A B : List α) (j : Nat)
    (hj : j < B.length) (h2 : A.length + j < (A ++ B).length) :
    (A ++ B).get ⟨A.length + j, h2⟩ = B.get ⟨j, hj⟩ := by
  simp only [List.get_eq_getElem, Fin.val_mk]
  rw [List.getElem_append_right (by omega)]
  congr 1
  omega

theorem listGet_map {α β : Type} (f : α → β) (l : List α) (j : Nat)
    (hj : j < (l.map f).length) (hj2 : j < l.length) :
    (l.map f).get ⟨j, hj⟩ = f (l.get ⟨j, hj2⟩) := by
  simp only [List.get_eq_getElem, Fin.val_mk]
  rw [List.getElem_map]

theorem sumSizes_append (A B : List SectionHeader) :
    sumSizes (A ++ B) = sumSizes A + sumSizes B := by
  simp [sumSizes]

theorem Contiguous_append (align : Nat) :
    ∀ (A B : List SectionHeader) (p : Nat),
      Contiguous align p (A ++ B) ↔
        Contiguous align p A ∧ Contiguous align (p + sumSizes A) B := by
  intro A
  induction A with
  | nil =>
    intro B p
    simp only [List.nil_append, sumSizes_nil, Nat.add_zero]
    exact ⟨fun h => ⟨trivial, h⟩, fun h => h.2⟩
  | cons s rest ih =>
    intro B p
    constructor
    · rintro ⟨h1, h2, h3, h4⟩
      obtain ⟨ha, hb⟩ := (ih B (p + s.sizeOfRawData)).mp h4
      refine ⟨⟨h1, h2, h3, ha⟩, ?_⟩
      have harr : p + sumSizes (s :: rest) = p + s.sizeOfRawData + sumSizes rest := by
        rw [sumSizes_cons]
        omega
      rw [harr]
      exact hb
    · rintro ⟨⟨h1, h2, h3, ha⟩, hb⟩
      refine ⟨h1, h2, h3, (ih B (p + s.sizeOfRawData)).mpr ⟨ha, ?_⟩⟩
      have harr : p + s.sizeOfRawData + sumSizes rest = p + sumSizes (s :: rest) := by
        rw [sumSizes_cons]
        omega
      rw [harr]
      exact hb

theorem Contiguous_get_bounds (align : Nat) :
    ∀ (L : List SectionHeader) (p : Nat) (j : Nat) (hj : j < L.length),
      Contiguous align p L →
      p ≤ (L.get ⟨j, hj⟩).pointerToRawData ∧
      (L.get ⟨j, hj⟩).pointerToRawData + (L.get ⟨j, hj⟩).sizeOfRawData ≤
        p + sumSizes L := by
  intro L
  induction L with
  | nil => intro p j hj; exact absurd hj (by simp)
  | cons s rest ih =>
    intro p j hj hc
    obtain ⟨hp, _, _, hrest⟩ := hc
    match j with
    | 0 =>
      have hget : (s :: rest).get ⟨0, hj⟩ = s := rfl
      rw [hget, sumSizes_cons, hp]
      omega
    | j + 1 =>
      have hj' : j < rest.length := by
        simp only [List.length_cons] at hj
        omega
      have hget : (s :: rest).get ⟨j + 1, hj⟩ = rest.get ⟨j, hj'⟩ := rfl
      rw [hget, sumSizes_cons]
      have := ih (p + s.sizeOfRawData) j hj' hrest
      omega

theorem headerState_cursor (src : ImageFile) :
    (headerState src).cursor = ROUND_UP src.headerSize src.header.fileAlignment := rfl

theorem headerState_dumps (src : ImageFile) : (headerState src).bssDumps = [] := rfl

theorem headerState_out_lt (src : ImageFile) (q : Nat) (hq : q < src.headerSize) :
    (headerState src).out q = src.bytes q := by
  simp only [headerState]
  rw [writeBytes_lt _ _ _ _ _ _ hq,
    writeBytes_in _ _ _ _ _ _ (Nat.zero_le q) (by omega)]
  simp

theorem patchLineno_fields (ss ds : List SectionHeader) (d : SectionHeader) :
    (patchLineno ss ds d).name = d.name ∧
    (patchLineno ss ds d).virtualSize = d.virtualSize ∧
    (patchLineno ss ds d).virtualAddress = d.virtualAddress ∧
    (patchLineno ss ds d).sizeOfRawData = d.sizeOfRawData ∧
    (patchLineno ss ds d).pointerToRawData = d.pointerToRawData ∧
    (patchLineno ss ds d).pointerToRelocations = d.pointerToRelocations ∧
    (patchLineno ss ds d).numberOfRelocations = d.numberOfRelocations ∧
    (patchLineno ss ds d).numberOfLinenumbers = d.numberOfLinenumbers ∧
    (patchLineno ss ds d).characteristics = d.characteristics := by
  unfold patchLineno
  split
  · exact ⟨rfl, rfl, rfl, rfl, rfl, rfl, rfl, rfl, rfl⟩
  · exact ⟨rfl, rfl, rfl, rfl, rfl, rfl, rfl, rfl, rfl⟩

/-- The copy loop on a table L1 ++ sk :: L2 where sk (and only sk) owns
the growing bss region whose overwrite extends G bytes past sk's raw
data: sections before sk keep their raw-data pointers, sk is grown by
ROUND_UP G align and reflagged, sections after sk are shifted by exactly
ROUND_UP G align, the final cursor covers the whole run plus the growth,
exactly one dump is recorded, bytes below the entry cursor are
untouched, and every non-data-owning section's raw data is copied from
the source file at its (shifted) position. -/
theorem copyLoop_growth (align : Nat) (sb mem : Nat → Nat) (dataR : Option Region)
    (r : Region) (L1 L2 : List SectionHeader) (sk : SectionHeader) (G : Nat)
    (st : OutState) (p : Nat)
    (ha : 0 < align) (hdp : align ∣ p)
    (hc : Contiguous align p (L1 ++ sk :: L2))
    (hcur : st.cursor = p)
    (hown : r.owner = L1.length) (hdk : misses dataR L1.length)
    (hva : sk.virtualAddress ≤ r.rva) (hrW : r.rva < W)
    (hend : r.rva - sk.virtualAddress + r.size = sk.sizeOfRawData + G) :
    (copySections align sb mem dataR (some r) none 0 st (L1 ++ sk :: L2)).1 =
      L1.map (fun s => { s with pointerToRawData := s.pointerToRawData + 0 }) ++
      { sk with pointerToRawData := p + sumSizes L1
                sizeOfRawData := sk.sizeOfRawData + ROUND_UP G align
                characteristics :=
                  (sk.characteristics &&& SCN_UNINIT_MASK) ||| SCN_INIT_DATA } ::
      L2.map (fun s =>
        { s with pointerToRawData := s.pointerToRawData + ROUND_UP G align }) ∧
    (copySections align sb mem dataR (some r) none 0 st (L1 ++ sk :: L2)).2.cursor =
      p + sumSizes (L1 ++ sk :: L2) + ROUND_UP G align ∧
    (copySections align sb mem dataR (some r) none 0 st (L1 ++ sk :: L2)).2.bssDumps =
      st.bssDumps ++ [(r.rva, r.size)] ∧
    (∀ q, q < st.cursor →
      (copySections align sb mem dataR (some r) none 0 st (L1 ++ sk :: L2)).2.out q =
        st.out q) ∧
    (∀ j, (hj : j < L1.length) → misses dataR j →
      ∀ t, t < (L1.get ⟨j, hj⟩).sizeOfRawData →
        (copySections align sb mem dataR (some r) none 0 st (L1 ++ sk :: L2)).2.out
          ((L1.get ⟨j, hj⟩).pointerToRawData + t) =
          sb ((L1.get ⟨j, hj⟩).pointerToRawData + t)) ∧
    (∀ j, (hj : j < L2.length) → misses dataR (L1.length + 1 + j) →
      ∀ t, t < (L2.get ⟨j, hj⟩).sizeOfRawData →
        (copySections align sb mem dataR (some r) none 0 st (L1 ++ sk :: L2)).2.out
          ((L2.get ⟨j, hj⟩).pointerToRawData + ROUND_UP G align + t) =
          sb ((L2.get ⟨j, hj⟩).pointerToRawData + t)) := by
  obtain ⟨hc1, hc2⟩ := (Contiguous_append align L1 (sk :: L2) p).mp hc
  obtain ⟨hpk, hknz, hkdvd, hcL2⟩ := hc2
  rw [copySections_append align sb mem dataR (some r) none L1 (sk :: L2) 0 st]
  simp only [copySections, Nat.zero_add]
  have hout1 : ∀ r', (some r : Option Region) = some r' →
      r'.owner < 0 ∨ 0 + L1.length ≤ r'.owner := by
    intro r' hr'
    injection hr' with h
    subst h
    right
    rw [hown]
    omega
  obtain ⟨h11, h12, h13, h14, h15⟩ :=
    copySections_segment align sb mem dataR (some r) L1 0 st p 0 ha hdp ⟨0, rfl⟩ hc1
      (by omega) hout1
  have hcurk : (copySections align sb mem dataR (some r) none 0 st L1).2.cursor =
      p + sumSizes L1 := by
    rw [h12]
    omega
  have hdvdsum : align ∣ sumSizes L1 := Contiguous_dvd_sum align L1 p hc1
  have hdvdpk : align ∣ (p + sumSizes L1) := Nat.dvd_add hdp hdvdsum
  have hbs : misses (none : Option Region) L1.length := fun q hq => by cases hq
  obtain ⟨hs1, hs2, hs3⟩ :=
    sectionStep_bssOnly align sb mem dataR none r L1.length sk
      (copySections align sb mem dataR (some r) none 0 st L1).2 hown hdk hbs hknz hva hrW
  rw [hcurk] at hs1 hs2
  have hmax : max (ROUND_UP (p + sumSizes L1 + (r.rva - sk.virtualAddress) + r.size)
        align) (p + sumSizes L1 + sk.sizeOfRawData) =
      p + sumSizes L1 + sk.sizeOfRawData + ROUND_UP G align := by
    have harr : p + sumSizes L1 + (r.rva - sk.virtualAddress) + r.size =
        (p + sumSizes L1 + sk.sizeOfRawData) + G := by omega
    rw [harr, ROUND_UP_add_left _ _ _ (Nat.dvd_add hdvdpk hkdvd)]
    omega
  rw [hmax] at hs1 hs2
  have hsize : p + sumSizes L1 + sk.sizeOfRawData + ROUND_UP G align -
      (p + sumSizes L1) = sk.sizeOfRawData + ROUND_UP G align := by omega
  rw [hsize] at hs1
  have hs2' : (sectionStep align sb mem dataR (some r) none L1.length sk
      (copySections align sb mem dataR (some r) none 0 st L1).2).2.cursor =
      p + sumSizes L1 + sk.sizeOfRawData + ROUND_UP G align := by
    rw [hs2]
    exact ROUND_UP_eq_self _ _
      (Nat.dvd_add (Nat.dvd_add hdvdpk hkdvd) (ROUND_UP_dvd G align ha))
  have hout2 : ∀ r', (some r : Option Region) = some r' →
      r'.owner < L1.length + 1 ∨ (L1.length + 1) + L2.length ≤ r'.owner := by
    intro r' hr'
    injection hr' with h
    subst h
    left
    omega
  obtain ⟨h21, h22, h23, h24, h25⟩ :=
    copySections_segment align sb mem dataR (some r) L2 (L1.length + 1)
      (sectionStep align sb mem dataR (some r) none L1.length sk
        (copySections align sb mem dataR (some r) none 0 st L1).2).2
      (p + sumSizes L1 + sk.sizeOfRawData) (ROUND_UP G align) ha
      (Nat.dvd_add hdvdpk hkdvd) (ROUND_UP_dvd G align ha) hcL2 hs2' hout2
  have hstepge : ∀ q, q < p + sumSizes L1 →
      q < (sectionStep align sb mem dataR (some r) none L1.length sk
        (copySections align sb mem dataR (some r) none 0 st L1).2).2.cursor := by
    intro q hq
    rw [hs2']
    omega
  refine ⟨?_, ?_, ?_, ?_, ?_, ?_⟩
  · rw [h11, hs1, h21]
  · rw [h22, sumSizes_append, sumSizes_cons]
    omega
  · rw [h23, hs3, h13]
  · intro q hq
    have hqp : q < p := by omega
    rw [h24 q (hstepge q (by omega))]
    rw [sectionStep_out_below align sb mem dataR (some r) none L1.length sk _ q
      (by rw [hcurk]; omega)]
    exact h14 q hq
  · intro j hj hm t ht
    obtain ⟨hlo, hhi⟩ := Contiguous_get_bounds align L1 p j hj hc1
    have hP : (L1.get ⟨j, hj⟩).pointerToRawData + t < p + sumSizes L1 := by omega
    rw [h24 _ (hstepge _ hP)]
    rw [sectionStep_out_below align sb mem dataR (some r) none L1.length sk _ _
      (by rw [hcurk]; exact hP)]
    have hm' : misses dataR (0 + j) := by
      rw [Nat.zero_add]
      exact hm
    have h15' := h15 j hj hm' t ht
    have harr : (L1.get ⟨j, hj⟩).pointerToRawData + 0 + t =
        (L1.get ⟨j, hj⟩).pointerToRawData + t := by omega
    rw [harr] at h15'
    exact h15'
  · intro j hj hm t ht
    exact h25 j hj hm t ht

theorem listGet_congr {α : Type} (A B : List α) (h : A = B) (j : Nat)
    (hA : j < A.length) (hB : j < B.length) :
    A.get ⟨j, hA⟩ = B.get ⟨j, hB⟩ := by
  subst h
  rfl

theorem listGet_index_congr {α : Type} (A : List α) (i j : Nat) (h : i = j)
    (hi : i < A.length) (hj : j < A.length) :
    A.get ⟨i, hi⟩ = A.get ⟨j, hj⟩ := by
  subst h
  rfl

theorem listGet_cons_succ {α : Type} (a : α) (l : List α) (j : Nat)
    (h : j + 1 < (a :: l).length) (hj : j < l.length) :
    (a :: l).get ⟨j + 1, h⟩ = l.get ⟨j, hj⟩ := rfl

theorem patchLinenos_length (ss ds : List SectionHeader) :
    (patchLinenos ss ds).length = ds.length := List.length_map _ _

theorem patchLinenos_get (ss ds : List SectionHeader) (j : Nat)
    (hj : j < (patchLinenos ss ds).length) (hj2 : j < ds.length) :
    (patchLinenos ss ds).get ⟨j, hj⟩ = patchLineno ss ds (ds.get ⟨j, hj2⟩) :=
  listGet_map _ _ _ hj hj2

/-- Master characterization of copy_executable_and_dump_data for an
image whose section table is L1 ++ sk :: L2, laid out contiguously after
the aligned headers, where sk alone owns the growing bss region (no
static region) and the data region, if any, lives in another section:
the grown section keeps its raw-data file position, is grown by the
aligned growth and reflagged; earlier sections are untouched, later ones
are shifted by exactly the aligned growth; the total size grows by the
aligned growth; header bytes, untouched sections' raw data and the
trailing bytes are copied verbatim; the non-excepted header fields are
unchanged; and exactly one region dump is recorded. -/
theorem copy_growth_master (src : ImageFile) (mem : Nat → Nat)
    (dataR : Option Region) (r : Region) (L1 L2 : List SectionHeader)
    (sk : SectionHeader) (G : Nat)
    (hsecs : src.sections = L1 ++ sk :: L2)
    (ha : 0 < src.header.fileAlignment)
    (hc : Contiguous src.header.fileAlignment
      (ROUND_UP src.headerSize src.header.fileAlignment) src.sections)
    (hown : r.owner = L1.length) (hdk : misses dataR L1.length)
    (hva : sk.virtualAddress ≤ r.rva) (hrW : r.rva < W)
    (hend : r.rva - sk.virtualAddress + r.size = sk.sizeOfRawData + G)
    (hE : ROUND_UP src.headerSize src.header.fileAlignment +
      sumSizes src.sections ≤ src.size)
    (hszW : src.size < W)
    (hdbg : ∀ s ∈ src.sections, ¬ containsRva s src.header.debugDirVA) :
    (copy_executable_and_dump_data src mem dataR (some r) none).sections.length =
      L1.length + 1 + L2.length ∧
    (copy_executable_and_dump_data src mem dataR (some r) none).size =
      src.size + ROUND_UP G src.header.fileAlignment ∧
    (∀ j, (hj : j < L1.length) →
      (hj2 : j < (copy_executable_and_dump_data src mem dataR
        (some r) none).sections.length) →
      ((copy_executable_and_dump_data src mem dataR (some r) none).sections.get
          ⟨j, hj2⟩).name = (L1.get ⟨j, hj⟩).name ∧
      ((copy_executable_and_dump_data src mem dataR (some r) none).sections.get
          ⟨j, hj2⟩).virtualSize = (L1.get ⟨j, hj⟩).virtualSize ∧
      ((copy_executable_and_dump_data src mem dataR (some r) none).sections.get
          ⟨j, hj2⟩).virtualAddress = (L1.get ⟨j, hj⟩).virtualAddress ∧
      ((copy_executable_and_dump_data src mem dataR (some r) none).sections.get
          ⟨j, hj2⟩).sizeOfRawData = (L1.get ⟨j, hj⟩).sizeOfRawData ∧
      ((copy_executable_and_dump_data src mem dataR (some r) none).sections.get
          ⟨j, hj2⟩).pointerToRawData = (L1.get ⟨j, hj⟩).pointerToRawData ∧
      ((copy_executable_and_dump_data src mem dataR (some r) none).sections.get
          ⟨j, hj2⟩).pointerToRelocations = (L1.get ⟨j, hj⟩).pointerToRelocations ∧
      ((copy_executable_and_dump_data src mem dataR (some r) none).sections.get
          ⟨j, hj2⟩).numberOfRelocations = (L1.get ⟨j, hj⟩).numberOfRelocations ∧
      ((copy_executable_and_dump_data src mem dataR (some r) none).sections.get
          ⟨j, hj2⟩).numberOfLinenumbers = (L1.get ⟨j, hj⟩).numberOfLinenumbers ∧
      ((copy_executable_and_dump_data src mem dataR (some r) none).sections.get
          ⟨j, hj2⟩).characteristics = (L1.get ⟨j, hj⟩).characteristics) ∧
    (∀ (hj2 : L1.length < (copy_executable_and_dump_data src mem dataR
        (some r) none).sections.length),
      ((copy_executable_and_dump_data src mem dataR (some r) none).sections.get
          ⟨L1.length, hj2⟩).name = sk.name ∧
      ((copy_executable_and_dump_data src mem dataR (some r) none).sections.get
          ⟨L1.length, hj2⟩).virtualSize = sk.virtualSize ∧
      ((copy_executable_and_dump_data src mem dataR (some r) none).sections.get
          ⟨L1.length, hj2⟩).virtualAddress = sk.virtualAddress ∧
      ((copy_executable_and_dump_data src mem dataR (some r) none).sections.get
          ⟨L1.length, hj2⟩).pointerToRelocations = sk.pointerToRelocations ∧
      ((copy_executable_and_dump_data src mem dataR (some r) none).sections.get
          ⟨L1.length, hj2⟩).numberOfRelocations = sk.numberOfRelocations ∧
      ((copy_executable_and_dump_data src mem dataR (some r) none).sections.get
          ⟨L1.length, hj2⟩).numberOfLinenumbers = sk.numberOfLinenumbers ∧
      ((copy_executable_and_dump_data src mem dataR (some r) none).sections.get
          ⟨L1.length, hj2⟩).pointerToRawData = sk.pointerToRawData ∧
      ((copy_executable_and_dump_data src mem dataR (some r) none).sections.get
          ⟨L1.length, hj2⟩).sizeOfRawData =
        sk.sizeOfRawData + ROUND_UP G src.header.fileAlignment ∧
      ((copy_executable_and_dump_data src mem dataR (some r) none).sections.get
          ⟨L1.length, hj2⟩).characteristics =
        (sk.characteristics &&& SCN_UNINIT_MASK) ||| SCN_INIT_DATA) ∧
    (∀ j, (hj : j < L2.length) →
      (hj2 : L1.length + 1 + j < (copy_executable_and_dump_data src mem dataR
        (some r) none).sections.length) →
      ((copy_executable_and_dump_data src mem dataR (some r) none).sections.get
          ⟨L1.length + 1 + j, hj2⟩).name = (L2.get ⟨j, hj⟩).name ∧
      ((copy_executable_and_dump_data src mem dataR (some r) none).sections.get
          ⟨L1.length + 1 + j, hj2⟩).virtualSize = (L2.get ⟨j, hj⟩).virtualSize ∧
      ((copy_executable_and_dump_data src mem dataR (some r) none).sections.get
          ⟨L1.length + 1 + j, hj2⟩).virtualAddress = (L2.get ⟨j, hj⟩).virtualAddress ∧
      ((copy_executable_and_dump_data src mem dataR (some r) none).sections.get
          ⟨L1.length + 1 + j, hj2⟩).pointerToRelocations =
        (L2.get ⟨j, hj⟩).pointerToRelocations ∧
      ((copy_executable_and_dump_data src mem dataR (some r) none).sections.get
          ⟨L1.length + 1 + j, hj2⟩).numberOfRelocations =
        (L2.get ⟨j, hj⟩).numberOfRelocations ∧
      ((copy_executable_and_dump_data src mem dataR (some r) none).sections.get
          ⟨L1.length + 1 + j, hj2⟩).numberOfLinenumbers =
        (L2.get ⟨j, hj⟩).numberOfLinenumbers ∧
      ((copy_executable_and_dump_data src mem dataR (some r) none).sections.get
          ⟨L1.length + 1 + j, hj2⟩).pointerToRawData =
        (L2.get ⟨j, hj⟩).pointerToRawData + ROUND_UP G src.header.fileAlignment ∧
      ((copy_executable_and_dump_data src mem dataR (some r) none).sections.get
          ⟨L1.length + 1 + j, hj2⟩).sizeOfRawData = (L2.get ⟨j, hj⟩).sizeOfRawData ∧
      ((copy_executable_and_dump_data src mem dataR (some r) none).sections.get
          ⟨L1.length + 1 + j, hj2⟩).characteristics =
        (L2.get ⟨j, hj⟩).characteristics) ∧
    ((copy_executable_and_dump_data src mem dataR (some r) none).header.fileAlignment =
      src.header.fileAlignment ∧
    (copy_executable_and_dump_data src mem dataR (some r) none).header.checkSum =
      src.header.checkSum ∧
    (copy_executable_and_dump_data src mem dataR (some r) none).header.debugDirVA =
      src.header.debugDirVA ∧
    (copy_executable_and_dump_data src mem dataR (some r) none).header.debugDirSize =
      src.header.debugDirSize ∧
    (copy_executable_and_dump_data src mem dataR (some r) none).header.headerRest =
      src.header.headerRest ∧
    (copy_executable_and_dump_data src mem dataR (some r) none).header.sizeOfHeaders =
      ROUND_UP src.headerSize src.header.fileAlignment) ∧
    (∀ q, q < src.headerSize →
      (copy_executable_and_dump_data src mem dataR (some r) none).out q =
        src.bytes q) ∧
    (∀ j, (hj : j < L1.length) → misses dataR j →
      ∀ t, t < (L1.get ⟨j, hj⟩).sizeOfRawData →
        (copy_executable_and_dump_data src mem dataR (some r) none).out
          ((L1.get ⟨j, hj⟩).pointerToRawData + t) =
          src.bytes ((L1.get ⟨j, hj⟩).pointerToRawData + t)) ∧
    (∀ j, (hj : j < L2.length) → misses dataR (L1.length + 1 + j) →
      ∀ t, t < (L2.get ⟨j, hj⟩).sizeOfRawData →
        (copy_executable_and_dump_data src mem dataR (some r) none).out
          ((L2.get ⟨j, hj⟩).pointerToRawData +
            ROUND_UP G src.header.fileAlignment + t) =
          src.bytes ((L2.get ⟨j, hj⟩).pointerToRawData + t)) ∧
    (∀ t, t < src.size - (ROUND_UP src.headerSize src.header.fileAlignment +
        sumSizes (L1 ++ sk :: L2)) →
      (copy_executable_and_dump_data src mem dataR (some r) none).out
        (ROUND_UP src.headerSize src.header.fileAlignment +
          sumSizes (L1 ++ sk :: L2) + ROUND_UP G src.header.fileAlignment + t) =
        src.bytes (ROUND_UP src.headerSize src.header.fileAlignment +
          sumSizes (L1 ++ sk :: L2) + t)) ∧
    (copy_executable_and_dump_data src mem dataR (some r) none).bssDumps =
      [(r.rva, r.size)] := by
  have hc' : Contiguous src.header.fileAlignment
      (ROUND_UP src.headerSize src.header.fileAlignment) (L1 ++ sk :: L2) := by
    rw [← hsecs]
    exact hc
  obtain ⟨hc1, hc2⟩ := (Contiguous_append _ _ _ _).mp hc'
  obtain ⟨hpk, hknz, hkdvd, hcL2⟩ := hc2
  have hp0dvd : src.header.fileAlignment ∣
      ROUND_UP src.headerSize src.header.fileAlignment := ROUND_UP_dvd _ _ ha
  obtain ⟨LPS, hLPS⟩ : ∃ x, x = copySections src.header.fileAlignment src.bytes mem
      dataR (some r) none 0 (headerState src) (L1 ++ sk :: L2) := ⟨_, rfl⟩
  obtain ⟨hl1, hl2, hl3, hl4, hl5, hl6⟩ :=
    copyLoop_growth src.header.fileAlignment src.bytes mem dataR r L1 L2 sk G
      (headerState src) (ROUND_UP src.headerSize src.header.fileAlignment)
      ha hp0dvd hc' (headerState_cursor src) hown hdk hva hrW hend
  rw [← hLPS] at hl1 hl2 hl3 hl4 hl5 hl6
  obtain ⟨M1l, hM1⟩ : ∃ x, x = L1.map
      (fun s => { s with pointerToRawData := s.pointerToRawData + 0 }) := ⟨_, rfl⟩
  obtain ⟨skN, hskN⟩ : ∃ x, x =
      { sk with
        pointerToRawData :=
          ROUND_UP src.headerSize src.header.fileAlignment + sumSizes L1
        sizeOfRawData := sk.sizeOfRawData + ROUND_UP G src.header.fileAlignment
        characteristics :=
          (sk.characteristics &&& SCN_UNINIT_MASK) ||| SCN_INIT_DATA } := ⟨_, rfl⟩
  obtain ⟨M2l, hM2⟩ : ∃ x, x = L2.map
      (fun s => { s with pointerToRawData :=
        s.pointerToRawData + ROUND_UP G src.header.fileAlignment }) := ⟨_, rfl⟩
  rw [← hM1, ← hskN, ← hM2] at hl1
  have hM1len : M1l.length = L1.length := by rw [hM1]; simp
  have hM2len : M2l.length = L2.length := by rw [hM2]; simp
  have hdvdE : src.header.fileAlignment ∣
      (ROUND_UP src.headerSize src.header.fileAlignment +
        sumSizes (L1 ++ sk :: L2)) :=
    Nat.dvd_add hp0dvd (Contiguous_dvd_sum _ _ _ hc')
  rw [hsecs] at hE
  have hLne : src.sections ≠ [] := by rw [hsecs]; simp
  obtain ⟨tsec, htfind, htend⟩ := findLastNonzero_contiguous src.header.fileAlignment
    src.sections (ROUND_UP src.headerSize src.header.fileAlignment) hc hLne
  rw [hsecs] at htend
  -- component equations of the copy
  have hsec_eq : (copy_executable_and_dump_data src mem dataR (some r) none).sections =
      patchLinenos (L1 ++ sk :: L2) LPS.1 := by
    simp only [copy_executable_and_dump_data]
    rw [hsecs, hLPS]
  have hsize_eq : (copy_executable_and_dump_data src mem dataR (some r) none).size =
      (trailerCopy src LPS.2).cursor := by
    simp only [copy_executable_and_dump_data]
    rw [hsecs, hLPS]
  have hdumps_eq : (copy_executable_and_dump_data src mem dataR
      (some r) none).bssDumps = (trailerCopy src LPS.2).bssDumps := by
    simp only [copy_executable_and_dump_data]
    rw [hsecs, hLPS]
  have hout_eq0 : (copy_executable_and_dump_data src mem dataR (some r) none).out =
      debugPatchOut src LPS.1 (trailerCopy src LPS.2).out := by
    simp only [copy_executable_and_dump_data]
    rw [hsecs, hLPS]
  -- trailer characterization
  have htr : trailerCopy src LPS.2 =
      { out := writeBytes LPS.2.out LPS.2.cursor src.bytes
          (ROUND_UP src.headerSize src.header.fileAlignment +
            sumSizes (L1 ++ sk :: L2))
          (src.size - (ROUND_UP src.headerSize src.header.fileAlignment +
            sumSizes (L1 ++ sk :: L2)))
        cursor := LPS.2.cursor +
          (src.size - (ROUND_UP src.headerSize src.header.fileAlignment +
            sumSizes (L1 ++ sk :: L2)))
        bssDumps := LPS.2.bssDumps } := by
    simp only [trailerCopy, htfind]
    rw [htend, ROUND_UP_eq_self _ _ hdvdE, wsub_eq _ _ hE hszW]
  have htrout : (trailerCopy src LPS.2).out = writeBytes LPS.2.out LPS.2.cursor
      src.bytes
      (ROUND_UP src.headerSize src.header.fileAlignment +
        sumSizes (L1 ++ sk :: L2))
      (src.size - (ROUND_UP src.headerSize src.header.fileAlignment +
        sumSizes (L1 ++ sk :: L2))) := by rw [htr]
  have htrcur : (trailerCopy src LPS.2).cursor = LPS.2.cursor +
      (src.size - (ROUND_UP src.headerSize src.header.fileAlignment +
        sumSizes (L1 ++ sk :: L2))) := by rw [htr]
  have htrdumps : (trailerCopy src LPS.2).bssDumps = LPS.2.bssDumps := by rw [htr]
  -- the debug directory lives in no section, so its patch is the identity
  have hnone : rva_to_section src.header.debugDirVA LPS.1 = none := by
    simp only [rva_to_section]
    apply rvaToSectionGo_none
    intro s' hs'
    rw [hl1, hM1, hskN, hM2] at hs'
    rcases List.mem_append.mp hs' with hA | hB
    · obtain ⟨s0, hs0, rfl⟩ := List.mem_map.mp hA
      exact hdbg s0 (by rw [hsecs]; exact List.mem_append_left _ hs0)
    · rcases List.mem_cons.mp hB with rfl | hC
      · exact hdbg sk
          (by rw [hsecs]; exact List.mem_append_right _ (List.mem_cons_self _ _))
      · obtain ⟨s0, hs0, rfl⟩ := List.mem_map.mp hC
        exact hdbg s0
          (by rw [hsecs]; exact List.mem_append_right _ (List.mem_cons_of_mem _ hs0))
  have hout_eq : (copy_executable_and_dump_data src mem dataR (some r) none).out =
      (trailerCopy src LPS.2).out := by
    rw [hout_eq0]
    simp only [debugPatchOut, hnone]
  -- lengths
  have hLPS1len : LPS.1.length = L1.length + (L2.length + 1) := by
    rw [hl1]
    simp only [List.length_append, List.length_cons, hM1len, hM2len]
  have hplen : (patchLinenos (L1 ++ sk :: L2) LPS.1).length =
      L1.length + (L2.length + 1) := by
    rw [patchLinenos_length, hLPS1len]
  have hsec_len : (copy_executable_and_dump_data src mem dataR
      (some r) none).sections.length = L1.length + (L2.length + 1) := by
    rw [hsec_eq, hplen]
  have happlen : (M1l ++ skN :: M2l).length = L1.length + (L2.length + 1) := by
    simp only [List.length_append, List.length_cons, hM1len, hM2len]
  have hsum : sumSizes (L1 ++ sk :: L2) =
      sumSizes L1 + (sk.sizeOfRawData + sumSizes L2) := by
    rw [sumSizes_append, sumSizes_cons]
  have hheadp0 : src.headerSize ≤ ROUND_UP src.headerSize src.header.fileAlignment :=
    ROUND_UP_le _ _
  refine ⟨?_, ?_, ?_, ?_, ?_, ?_, ?_, ?_, ?_, ?_, ?_⟩
  · rw [hsec_len]
    omega
  · rw [hsize_eq, htrcur, hl2]
    omega
  · -- sections before the grown one
    intro j hj hj2
    have hj2' : j < (patchLinenos (L1 ++ sk :: L2) LPS.1).length := by
      rw [hplen]
      omega
    have hjL : j < LPS.1.length := by
      rw [hLPS1len]
      omega
    have hjA : j < (M1l ++ skN :: M2l).length := by
      rw [happlen]
      omega
    have hjM : j < M1l.length := by omega
    have hmap1 : j < (L1.map
        (fun s => { s with pointerToRawData := s.pointerToRawData + 0 })).length := by
      simpa using hj
    have hgl : LPS.1.get ⟨j, hjL⟩ =
        { L1.get ⟨j, hj⟩ with
          pointerToRawData := (L1.get ⟨j, hj⟩).pointerToRawData + 0 } := by
      rw [listGet_congr _ _ hl1 j hjL hjA]
      rw [listGet_append_left M1l (skN :: M2l) j hjM hjA]
      rw [listGet_congr _ _ hM1 j hjM hmap1]
      rw [listGet_map _ _ j hmap1 hj]
    rw [listGet_congr _ _ hsec_eq j hj2 hj2']
    rw [patchLinenos_get _ _ j hj2' hjL]
    rw [hgl]
    obtain ⟨f1, f2, f3, f4, f5, f6, f7, f8, f9⟩ := patchLineno_fields
      (L1 ++ sk :: L2) LPS.1
      { L1.get ⟨j, hj⟩ with
        pointerToRawData := (L1.get ⟨j, hj⟩).pointerToRawData + 0 }
    exact ⟨f1, f2, f3, f4, f5, f6, f7, f8, f9⟩
  · -- the grown section
    intro hj2
    have hj2' : L1.length < (patchLinenos (L1 ++ sk :: L2) LPS.1).length := by
      rw [hplen]
      omega
    have hjL : L1.length < LPS.1.length := by
      rw [hLPS1len]
      omega
    have hjA : L1.length < (M1l ++ skN :: M2l).length := by
      rw [happlen]
      omega
    have hjA0 : M1l.length + 0 < (M1l ++ skN :: M2l).length := by
      rw [happlen]
      omega
    have hgl : LPS.1.get ⟨L1.length, hjL⟩ = skN := by
      rw [listGet_congr _ _ hl1 _ hjL hjA]
      rw [listGet_index_congr _ L1.length (M1l.length + 0) (by omega) hjA hjA0]
      rw [listGet_append_right M1l (skN :: M2l) 0 (by simp) hjA0]
      rfl
    rw [listGet_congr _ _ hsec_eq _ hj2 hj2']
    rw [patchLinenos_get _ _ L1.length hj2' hjL]
    rw [hgl, hskN]
    obtain ⟨f1, f2, f3, f4, f5, f6, f7, f8, f9⟩ :=
      patchLineno_fields (L1 ++ sk :: L2) LPS.1
        { sk with
          pointerToRawData :=
            ROUND_UP src.headerSize src.header.fileAlignment + sumSizes L1
          sizeOfRawData := sk.sizeOfRawData + ROUND_UP G src.header.fileAlignment
          characteristics :=
            (sk.characteristics &&& SCN_UNINIT_MASK) ||| SCN_INIT_DATA }
    refine ⟨f1, f2, f3, f6, f7, f8, ?_, f4, f9⟩
    rw [f5]
    exact hpk.symm
  · -- sections after the grown one
    intro j hj hj2
    have hj2' : L1.length + 1 + j < (patchLinenos (L1 ++ sk :: L2) LPS.1).length := by
      rw [hplen]
      omega
    have hjL : L1.length + 1 + j < LPS.1.length := by
      rw [hLPS1len]
      omega
    have hjA : L1.length + 1 + j < (M1l ++ skN :: M2l).length := by
      rw [happlen]
      omega
    have hjA1 : M1l.length + (j + 1) < (M1l ++ skN :: M2l).length := by
      rw [happlen]
      omega
    have hjB : j + 1 < (skN :: M2l).length := by
      simp only [List.length_cons]
      omega
    have hjM : j < M2l.length := by omega
    have hmap2 : j < (L2.map (fun s =>
        { s with pointerToRawData :=
            s.pointerToRawData + ROUND_UP G src.header.fileAlignment })).length := by
      simpa using hj
    have hgl : LPS.1.get ⟨L1.length + 1 + j, hjL⟩ =
        { L2.get ⟨j, hj⟩ with
          pointerToRawData :=
            (L2.get ⟨j, hj⟩).pointerToRawData +
              ROUND_UP G src.header.fileAlignment } := by
      rw [listGet_congr _ _ hl1 _ hjL hjA]
      rw [listGet_index_congr _ (L1.length + 1 + j) (M1l.length + (j + 1))
        (by omega) hjA hjA1]
      rw [listGet_append_right M1l (skN :: M2l) (j + 1) hjB hjA1]
      rw [listGet_cons_succ skN M2l j hjB hjM]
      rw [listGet_congr _ _ hM2 j hjM hmap2]
      rw [listGet_map _ _ j hmap2 hj]
    rw [listGet_congr _ _ hsec_eq _ hj2 hj2']
    rw [patchLinenos_get _ _ (L1.length + 1 + j) hj2' hjL]
    rw [hgl]
    obtain ⟨f1, f2, f3, f4, f5, f6, f7, f8, f9⟩ := patchLineno_fields
      (L1 ++ sk :: L2) LPS.1
      { L2.get ⟨j, hj⟩ with
        pointerToRawData :=
          (L2.get ⟨j, hj⟩).pointerToRawData + ROUND_UP G src.header.fileAlignment }
    exact ⟨f1, f2, f3, f6, f7, f8, f5, f4, f9⟩
  · -- header fields
    exact ⟨rfl, rfl, rfl, rfl, rfl, rfl⟩
  · -- header bytes
    intro q hq
    rw [hout_eq, htrout]
    rw [writeBytes_lt _ _ _ _ _ _ (by rw [hl2]; omega)]
    rw [hl4 q (by rw [headerState_cursor]; omega)]
    exact headerState_out_lt src q hq
  · -- raw data of untouched sections before the grown one
    intro j hj hm t ht
    obtain ⟨hlo, hhi⟩ := Contiguous_get_bounds src.header.fileAlignment L1
      (ROUND_UP src.headerSize src.header.fileAlignment) j hj hc1
    rw [hout_eq, htrout]
    rw [writeBytes_lt _ _ _ _ _ _ (by rw [hl2]; omega)]
    exact hl5 j hj hm t ht
  · -- raw data of untouched sections after the grown one
    intro j hj hm t ht
    obtain ⟨hlo, hhi⟩ := Contiguous_get_bounds src.header.fileAlignment L2
      (ROUND_UP src.headerSize src.header.fileAlignment + sumSizes L1 +
        sk.sizeOfRawData) j hj hcL2
    rw [hout_eq, htrout]
    rw [writeBytes_lt _ _ _ _ _ _ (by rw [hl2]; omega)]
    exact hl6 j hj hm t ht
  · -- trailing bytes
    intro t ht
    rw [hout_eq, htrout]
    rw [writeBytes_in _ _ _ _ _ _ (by rw [hl2]; omega) (by rw [hl2]; omega)]
    congr 1
    rw [hl2]
    omega
  · rw [hdumps_eq, htrdumps, hl3, headerState_dumps]
    simp

/-! ### Claim C3: growth shifts the total size and later sections -/

/-- C3: for a source image whose contiguously laid out section table is
L1 ++ sk :: L2, where sk (the one uninitialized-data section) owns the
tracked region growing G bytes past sk's raw data, the destination
image's total size equals the source file size plus G rounded up to the
file alignment, and every section after the grown one has its raw-data
file offset shifted by exactly that rounded growth amount. -/
theorem bss_growth_total_size_and_shift (src : ImageFile) (mem : Nat → Nat)
    (dataR : Option Region) (r : Region) (L1 L2 : List SectionHeader)
    (sk : SectionHeader) (G : Nat)
    (hsecs : src.sections = L1 ++ sk :: L2)
    (ha : 0 < src.header.fileAlignment)
    (hc : Contiguous src.header.fileAlignment
      (ROUND_UP src.headerSize src.header.fileAlignment) src.sections)
    (hown : r.owner = L1.length) (hdk : misses dataR L1.length)
    (hva : sk.virtualAddress ≤ r.rva) (hrW : r.rva < W)
    (hend : r.rva - sk.virtualAddress + r.size = sk.sizeOfRawData + G)
    (hE : ROUND_UP src.headerSize src.header.fileAlignment +
      sumSizes src.sections ≤ src.size)
    (hszW : src.size < W)
    (hdbg : ∀ s ∈ src.sections, ¬ containsRva s src.header.debugDirVA) :
    (copy_executable_and_dump_data src mem dataR (some r) none).size =
      src.size + ROUND_UP G src.header.fileAlignment ∧
    ∀ j, (hj : j < L2.length) →
      (hj2 : L1.length + 1 + j < (copy_executable_and_dump_data src mem dataR
        (some r) none).sections.length) →
      ((copy_executable_and_dump_data src mem dataR (some r) none).sections.get
          ⟨L1.length + 1 + j, hj2⟩).pointerToRawData =
        (L2.get ⟨j, hj⟩).pointerToRawData + ROUND_UP G src.header.fileAlignment := by
  obtain ⟨m1, m2, m3, m4, m5, m6, m7, m8, m9, m10, m11⟩ :=
    copy_growth_master src mem dataR r L1 L2 sk G hsecs ha hc hown hdk hva hrW
      hend hE hszW hdbg
  exact ⟨m2, fun j hj hj2 => (m5 j hj hj2).2.2.2.2.2.2.1⟩

def c3s1 : SectionHeader := mkSec 4 4 100 4 64

def c3s2 : SectionHeader := mkSec 8 4 200 16 128

def c3s3 : SectionHeader := mkSec 12 4 300 4 64

/-- A three-section image with file alignment 4: headers of 4 bytes,
then 4-byte sections at offsets 4, 8, 12, a 4-byte trailer, with the
middle section uninitialized-data. -/
def c3img : ImageFile :=
  { eMagic := 23117, ntSignature := 17744
    header := { fileAlignment := 4, sizeOfHeaders := 4, sizeOfInitializedData := 0
                sizeOfUninitData := 0, pointerToSymbolTable := 0, checkSum := 5
                debugDirVA := 0, debugDirSize := 0, headerRest := 9 }
    headerSize := 4
    sections := [c3s1, c3s2, c3s3]
    bytes := fun p => p
    size := 20 }

/-- The bss region of the middle section: 6 bytes at its start, growing
2 bytes past the 4 raw bytes; the aligned growth is 4. -/
def c3region : Region := { rva := 200, size := 6, owner := 1 }

theorem bss_growth_total_size_and_shift_witness :
    (copy_executable_and_dump_data c3img (fun _ => 7) none (some c3region) none).size =
      24 ∧
    ((copy_executable_and_dump_data c3img (fun _ => 7) none
        (some c3region) none).sections.get ⟨2, by decide⟩).pointerToRawData = 16 := by
  obtain ⟨h1, h2⟩ := bss_growth_total_size_and_shift c3img (fun _ => 7) none c3region
    [c3s1] [c3s3] c3s2 2 rfl (by decide) (by decide) (by decide) (by decide)
    (by decide) (by decide) (by decide) (by decide) (by decide) (by decide)
  refine ⟨h1.trans (by decide), ?_⟩
  have h3 := h2 0 (by decide) (by decide)
  exact h3.trans (by decide)

/-! ### Claim C6: everything else is unchanged (frame) -/

/-- C6: the copier's frame: for a contiguously laid out source image
L1 ++ sk :: L2 whose uninitialized-data section sk alone owns the
growing region, the destination keeps the section count and order, every
field of the sections before the grown one, every field of the grown
section except its raw-data size and characteristics, every field of the
later sections except their raw-data offsets (line-number pointers, all
zero here, are relocated in place), the header fields other than the
recomputed ones, and the bytes of the headers, of every non-owning
section's raw data (at its relocated offset) and of the trailing slack
(shifted by the aligned growth). -/
theorem copy_frame_preserves_rest (src : ImageFile) (mem : Nat → Nat)
    (dataR : Option Region) (r : Region) (L1 L2 : List SectionHeader)
    (sk : SectionHeader) (G : Nat)
    (hsecs : src.sections = L1 ++ sk :: L2)
    (ha : 0 < src.header.fileAlignment)
    (hc : Contiguous src.header.fileAlignment
      (ROUND_UP src.headerSize src.header.fileAlignment) src.sections)
    (hown : r.owner = L1.length) (hdk : misses dataR L1.length)
    (hva : sk.virtualAddress ≤ r.rva) (hrW : r.rva < W)
    (hend : r.rva - sk.virtualAddress + r.size = sk.sizeOfRawData + G)
    (hE : ROUND_UP src.headerSize src.header.fileAlignment +
      sumSizes src.sections ≤ src.size)
    (hszW : src.size < W)
    (hdbg : ∀ s ∈ src.sections, ¬ containsRva s src.header.debugDirVA) :
    (copy_executable_and_dump_data src mem dataR (some r) none).sections.length =
      src.sections.length ∧
    (∀ j, (hj : j < L1.length) →
      (hj2 : j < (copy_executable_and_dump_data src mem dataR
        (some r) none).sections.length) →
      ((copy_executable_and_dump_data src mem dataR (some r) none).sections.get
          ⟨j, hj2⟩).name = (L1.get ⟨j, hj⟩).name ∧
      ((copy_executable_and_dump_data src mem dataR (some r) none).sections.get
          ⟨j, hj2⟩).virtualSize = (L1.get ⟨j, hj⟩).virtualSize ∧
      ((copy_executable_and_dump_data src mem dataR (some r) none).sections.get
          ⟨j, hj2⟩).virtualAddress = (L1.get ⟨j, hj⟩).virtualAddress ∧
      ((copy_executable_and_dump_data src mem dataR (some r) none).sections.get
          ⟨j, hj2⟩).sizeOfRawData = (L1.get ⟨j, hj⟩).sizeOfRawData ∧
      ((copy_executable_and_dump_data src mem dataR (some r) none).sections.get
          ⟨j, hj2⟩).pointerToRawData = (L1.get ⟨j, hj⟩).pointerToRawData ∧
      ((copy_executable_and_dump_data src mem dataR (some r) none).sections.get
          ⟨j, hj2⟩).pointerToRelocations = (L1.get ⟨j, hj⟩).pointerToRelocations ∧
      ((copy_executable_and_dump_data src mem dataR (some r) none).sections.get
          ⟨j, hj2⟩).numberOfRelocations = (L1.get ⟨j, hj⟩).numberOfRelocations ∧
      ((copy_executable_and_dump_data src mem dataR (some r) none).sections.get
          ⟨j, hj2⟩).numberOfLinenumbers = (L1.get ⟨j, hj⟩).numberOfLinenumbers ∧
      ((copy_executable_and_dump_data src mem dataR (some r) none).sections.get
          ⟨j, hj2⟩).characteristics = (L1.get ⟨j, hj⟩).characteristics) ∧
    (∀ (hj2 : L1.length < (copy_executable_and_dump_data src mem dataR
        (some r) none).sections.length),
      ((copy_executable_and_dump_data src mem dataR (some r) none).sections.get
          ⟨L1.length, hj2⟩).name = sk.name ∧
      ((copy_executable_and_dump_data src mem dataR (some r) none).sections.get
          ⟨L1.length, hj2⟩).virtualSize = sk.virtualSize ∧
      ((copy_executable_and_dump_data src mem dataR (some r) none).sections.get
          ⟨L1.length, hj2⟩).virtualAddress = sk.virtualAddress ∧
      ((copy_executable_and_dump_data src mem dataR (some r) none).sections.get
          ⟨L1.length, hj2⟩).pointerToRelocations = sk.pointerToRelocations ∧
      ((copy_executable_and_dump_data src mem dataR (some r) none).sections.get
          ⟨L1.length, hj2⟩).numberOfRelocations = sk.numberOfRelocations ∧
      ((copy_executable_and_dump_data src mem dataR (some r) none).sections.get
          ⟨L1.length, hj2⟩).numberOfLinenumbers = sk.numberOfLinenumbers ∧
      ((copy_executable_and_dump_data src mem dataR (some r) none).sections.get
          ⟨L1.length, hj2⟩).pointerToRawData = sk.pointerToRawData) ∧
    (∀ j, (hj : j < L2.length) →
      (hj2 : L1.length + 1 + j < (copy_executable_and_dump_data src mem dataR
        (some r) none).sections.length) →
      ((copy_executable_and_dump_data src mem dataR (some r) none).sections.get
          ⟨L1.length + 1 + j, hj2⟩).name = (L2.get ⟨j, hj⟩).name ∧
      ((copy_executable_and_dump_data src mem dataR (some r) none).sections.get
          ⟨L1.length + 1 + j, hj2⟩).virtualSize = (L2.get ⟨j, hj⟩).virtualSize ∧
      ((copy_executable_and_dump_data src mem dataR (some r) none).sections.get
          ⟨L1.length + 1 + j, hj2⟩).virtualAddress = (L2.get ⟨j, hj⟩).virtualAddress ∧
      ((copy_executable_and_dump_data src mem dataR (some r) none).sections.get
          ⟨L1.length + 1 + j, hj2⟩).pointerToRelocations =
        (L2.get ⟨j, hj⟩).pointerToRelocations ∧
      ((copy_executable_and_dump_data src mem dataR (some r) none).sections.get
          ⟨L1.length + 1 + j, hj2⟩).numberOfRelocations =
        (L2.get ⟨j, hj⟩).numberOfRelocations ∧
      ((copy_executable_and_dump_data src mem dataR (some r) none).sections.get
          ⟨L1.length + 1 + j, hj2⟩).numberOfLinenumbers =
        (L2.get ⟨j, hj⟩).numberOfLinenumbers ∧
      ((copy_executable_and_dump_data src mem dataR (some r) none).sections.get
          ⟨L1.length + 1 + j, hj2⟩).sizeOfRawData = (L2.get ⟨j, hj⟩).sizeOfRawData ∧
      ((copy_executable_and_dump_data src mem dataR (some r) none).sections.get
          ⟨L1.length + 1 + j, hj2⟩).characteristics =
        (L2.get ⟨j, hj⟩).characteristics) ∧
    ((copy_executable_and_dump_data src mem dataR (some r) none).header.fileAlignment =
      src.header.fileAlignment ∧
    (copy_executable_and_dump_data src mem dataR (some r) none).header.checkSum =
      src.header.checkSum ∧
    (copy_executable_and_dump_data src mem dataR (some r) none).header.debugDirVA =
      src.header.debugDirVA ∧
    (copy_executable_and_dump_data src mem dataR (some r) none).header.debugDirSize =
      src.header.debugDirSize ∧
    (copy_executable_and_dump_data src mem dataR (some r) none).header.headerRest =
      src.header.headerRest) ∧
    (∀ q, q < src.headerSize →
      (copy_executable_and_dump_data src mem dataR (some r) none).out q =
        src.bytes q) ∧
    (∀ j, (hj : j < L1.length) → misses dataR j →
      ∀ t, t < (L1.get ⟨j, hj⟩).sizeOfRawData →
        (copy_executable_and_dump_data src mem dataR (some r) none).out
          ((L1.get ⟨j, hj⟩).pointerToRawData + t) =
          src.bytes ((L1.get ⟨j, hj⟩).pointerToRawData + t)) ∧
    (∀ j, (hj : j < L2.length) → misses dataR (L1.length + 1 + j) →
      ∀ t, t < (L2.get ⟨j, hj⟩).sizeOfRawData →
        (copy_executable_and_dump_data src mem dataR (some r) none).out
          ((L2.get ⟨j, hj⟩).pointerToRawData +
            ROUND_UP G src.header.fileAlignment + t) =
          src.bytes ((L2.get ⟨j, hj⟩).pointerToRawData + t)) ∧
    (∀ t, t < src.size - (ROUND_UP src.headerSize src.header.fileAlignment +
        sumSizes (L1 ++ sk :: L2)) →
      (copy_executable_and_dump_data src mem dataR (some r) none).out
        (ROUND_UP src.headerSize src.header.fileAlignment +
          sumSizes (L1 ++ sk :: L2) + ROUND_UP G src.header.fileAlignment + t) =
        src.bytes (ROUND_UP src.headerSize src.header.fileAlignment +
          sumSizes (L1 ++ sk :: L2) + t)) := by
  obtain ⟨m1, m2, m3, m4, m5, m6, m7, m8, m9, m10, m11⟩ :=
    copy_growth_master src mem dataR r L1 L2 sk G hsecs ha hc hown hdk hva hrW
      hend hE hszW hdbg
  refine ⟨?_, m3, ?_, ?_, ⟨m6.1, m6.2.1, m6.2.2.1, m6.2.2.2.1, m6.2.2.2.2.1⟩,
    m7, m8, m9, m10⟩
  · rw [m1, hsecs]
    simp only [List.length_append, List.length_cons]
    omega
  · intro hj2
    obtain ⟨f1, f2, f3, f4, f5, f6, f7, f8, f9⟩ := m4 hj2
    exact ⟨f1, f2, f3, f4, f5, f6, f7⟩
  · intro j hj hj2
    obtain ⟨f1, f2, f3, f4, f5, f6, f7, f8, f9⟩ := m5 j hj hj2
    exact ⟨f1, f2, f3, f4, f5, f6, f8, f9⟩

theorem copy_frame_preserves_rest_witness :
    (copy_executable_and_dump_data c3img (fun _ => 7) none
        (some c3region) none).sections.length = 3 ∧
    (copy_executable_and_dump_data c3img (fun _ => 7) none
        (some c3region) none).header.checkSum = 5 ∧
    (copy_executable_and_dump_data c3img (fun _ => 7) none
        (some c3region) none).header.headerRest = 9 ∧
    ((copy_executable_and_dump_data c3img (fun _ => 7) none
        (some c3region) none).sections.get ⟨0, by decide⟩).pointerToRawData = 4 ∧
    ((copy_executable_and_dump_data c3img (fun _ => 7) none
        (some c3region) none).sections.get ⟨2, by decide⟩).sizeOfRawData = 4 ∧
    (copy_executable_and_dump_data c3img (fun _ => 7) none
        (some c3region) none).out 2 = 2 ∧
    (copy_executable_and_dump_data c3img (fun _ => 7) none
        (some c3region) none).out 5 = 5 ∧
    (copy_executable_and_dump_data c3img (fun _ => 7) none
        (some c3region) none).out 17 = 13 ∧
    (copy_executable_and_dump_data c3img (fun _ => 7) none
        (some c3region) none).out 21 = 17 := by
  obtain ⟨a1, a2, a3, a4, a5, a6, a7, a8, a9⟩ :=
    copy_frame_preserves_rest c3img (fun _ => 7) none c3region
      [c3s1] [c3s3] c3s2 2 rfl (by decide) (by decide) (by decide) (by decide)
      (by decide) (by decide) (by decide) (by decide) (by decide) (by decide)
  refine ⟨a1.trans (by decide), a5.2.1.trans (by decide),
    a5.2.2.2.2.trans (by decide), ?_, ?_, ?_, ?_, ?_, ?_⟩
  · exact ((a2 0 (by decide) (by decide)).2.2.2.2.1).trans (by decide)
  · exact ((a4 0 (by decide) (by decide)).2.2.2.2.2.2.1).trans (by decide)
  · exact (a6 2 (by decide)).trans (by decide)
  · exact (a7 0 (by decide) (by decide) 1 (by decide)).trans (by decide)
  · exact (a8 0 (by decide) (by decide) 1 (by decide)).trans (by decide)
  · exact (a9 1 (by decide)).trans (by decide)
